import Mathlib

/-!
Shallow embedding of the coverage-engine in `src/main.py` (a FastAPI
service computing RSRP over a directional grid) and proofs about it.

Modelling conventions:
* Python floats are modelled as real numbers (`ℝ`).
* The process-wide dict `elevation_cache` is modelled as an association
  list threaded explicitly; assignment prepends an entry and lookup takes
  the first match, which is observationally the dict semantics while also
  retaining the full write history (used to state the write-once claim).
* `requests.get` against the elevation API is modelled by an oracle
  `ℕ → ℕ → Option (List ℝ)` mapping (retry round, batch index) to either
  `none` (transport error) or `some es` (a response whose `results` carry
  the elevations `es`); a `some es` with `es.length ≠ batch.length` is the
  "incomplete elevation data" case of the code.
* `math.log10` raises `ValueError` on non-positive input, so the one
  place the code applies it to an unguarded quantity (the carrier
  frequency) is modelled in `Except`; `np.log10`/`np.sqrt` (used in
  `fresnel_zone_loss`) do not raise and are only ever applied to positive
  arguments on the branches where their value matters, so they are
  modelled by the total `Real` functions.
* Python's iteration order over the set `unique_points` is unspecified,
  so the deduplicated list `uniq` is passed as a parameter, constrained
  (in theorems that need it) to be a duplicate-free enumeration of the
  rounded input points.
* `time.sleep` (the retry delay) has no observable effect on the data
  flow and is not modelled.
-/

namespace Propagation

noncomputable section

open Real

/-- Keys of the elevation cache: a (lat, lng) pair rounded to 5 decimals. -/
abbrev Key : Type := ℝ × ℝ

/-- The elevation cache: newest write first; lookup takes the first match. -/
abbrev Cache : Type := List (Key × ℝ)

/-- First-match lookup in the cache (the dict lookup of the code). -/
def lookupC : Cache → Key → Option ℝ
  | [], _ => none
  | (k, v) :: rest, key => if key = k then some v else lookupC rest key

/-- Model of `dict.get(key, d)` of the code. -/
def lookupD (c : Cache) (k : Key) (d : ℝ) : ℝ := (lookupC c k).getD d

/-- Python's `round(x, 5)` (rounding to 5 decimal places; exact ties are
immaterial to every claim below). -/
def round5 (x : ℝ) : ℝ := ((round (x * 100000) : ℤ) : ℝ) / 100000

/-- The rounded cache key of a raw coordinate pair. -/
def roundPt (p : ℝ × ℝ) : Key := (round5 p.1, round5 p.2)

/-- Model of `math.log10` / `np.log10` on positive arguments. -/
def log10 (x : ℝ) : ℝ := Real.logb 10 x

/-- Model of `math.radians`. -/
def radians (x : ℝ) : ℝ := x * Real.pi / 180

/-- Model of `math.degrees`. -/
def degrees (x : ℝ) : ℝ := x * 180 / Real.pi

/-- Model of `math.atan2 y x` (full quadrant-aware arctangent). -/
def atan2 (y x : ℝ) : ℝ :=
  if 0 < x then Real.arctan (y / x)
  else if x < 0 then
    (if 0 ≤ y then Real.arctan (y / x) + Real.pi else Real.arctan (y / x) - Real.pi)
  else (if 0 < y then Real.pi / 2 else if y < 0 then -Real.pi / 2 else 0)

/-- Python's `int()` truncation toward zero of a real. -/
def pyInt (x : ℝ) : ℤ := if x < 0 then -⌊-x⌋ else ⌊x⌋

/-- Translation of `fresnel_zone_loss(distance_km, height_diff, frequency_mhz)` from
`src/main.py` lines 91-111, translated branch for branch. -/
def fresnel_zone_loss (distance_km height_diff frequency_mhz : ℝ) : ℝ :=
  if distance_km ≤ 0 ∨ frequency_mhz ≤ 0 then -140
  else
    let wavelength_m := 300 / frequency_mhz
    let fresnel_radius := Real.sqrt (wavelength_m * distance_km * 1000 / 2)
    if fresnel_radius ≤ 0 then -140
    else if fresnel_radius < height_diff then -20 * log10 (height_diff / fresnel_radius)
    else if 0 < height_diff then -6 * (height_diff / fresnel_radius) ^ 2
    else 0

/-- The great-circle approximation `sqrt(dlat^2 + dlng^2) * 111` used by both
`detailed_los_with_diffraction` and `calculate_rsrp_with_enhanced_los`. -/
def gcDistance (site_lat site_lng point_lat point_lng : ℝ) : ℝ :=
  Real.sqrt ((site_lat - point_lat) ^ 2 + (site_lng - point_lng) ^ 2) * 111

/-- The segment count `max(10, min(200, int(distance_km * 100)))`, as a natural number
(the code's value is an `int ≥ 10`). -/
def losSegments (distance_km : ℝ) : ℕ := (max 10 (min 200 (pyInt (distance_km * 100)))).toNat

/-- Terrain elevation looked up for intermediate sample `i` of the LOS walk
(`elevation_cache.get(intermediate_key, 0)`). -/
def losElev (cache : Cache) (site_lat site_lng lat_step lng_step : ℝ) (i : ℕ) : ℝ :=
  lookupD cache (round5 (site_lat + i * lat_step), round5 (site_lng + i * lng_step)) 0

/-- The `height_diff` of intermediate sample `i`: terrain elevation minus the
linearly interpolated line-of-sight height. -/
def losHD (cache : Cache) (site_lat site_lng lat_step lng_step site_height point_height : ℝ)
    (n : ℕ) (i : ℕ) : ℝ :=
  losElev cache site_lat site_lng lat_step lng_step i -
    (site_height + (point_height - site_height) * ((i : ℝ) / (n : ℝ)))

/-- One iteration of the LOS loop: accumulate diffraction loss and clear flag. -/
def losStep (cache : Cache) (site_lat site_lng lat_step lng_step site_height point_height
    distance_km frequency : ℝ) (n : ℕ) (acc : ℝ × Bool) (i : ℕ) : ℝ × Bool :=
  if 0 < losHD cache site_lat site_lng lat_step lng_step site_height point_height n i then
    (acc.1 + fresnel_zone_loss distance_km
        (losHD cache site_lat site_lng lat_step lng_step site_height point_height n i) frequency,
      false)
  else acc

/-- Translation of `detailed_los_with_diffraction` from `src/main.py` lines 113-145:
returns `(los_clear, normalized_loss)`. -/
def detailed_los_with_diffraction (cache : Cache)
    (site_lat site_lng point_lat point_lng site_height point_height frequency : ℝ) : Bool × ℝ :=
  let distance_km := gcDistance site_lat site_lng point_lat point_lng
  if distance_km ≤ 0 then (false, 20)
  else
    let n := losSegments distance_km
    let lat_step := (point_lat - site_lat) / (n : ℝ)
    let lng_step := (point_lng - site_lng) / (n : ℝ)
    let acc := (List.range' 1 (n - 1)).foldl
      (losStep cache site_lat site_lng lat_step lng_step site_height point_height
        distance_km frequency n) ((0 : ℝ), true)
    (acc.2, min 20 (-acc.1 / (n : ℝ)))

/-- The COST-231 Hata baseline path loss of `src/main.py` lines 184-189. -/
def baselinePathLoss (frequency site_total_height distance_km : ℝ) : ℝ :=
  46.3 + 33.9 * log10 frequency - 13.82 * log10 site_total_height +
    (44.9 - 6.55 * log10 site_total_height) * log10 distance_km

/-- The shadowing table `{"urban": 2, "suburban": 1.5, "rural": 1}.get(environment, 0)`. -/
def shadowing (environment : String) : ℝ :=
  if environment = "urban" then 2
  else if environment = "suburban" then 1.5
  else if environment = "rural" then 1
  else 0

/-- The effective height `site_total_height = max(1, base_height + site_elevation)`. -/
def rsrpSiteTotal (cache : Cache) (site_lat site_lng base_height : ℝ) : ℝ :=
  max 1 (base_height + lookupD cache (roundPt (site_lat, site_lng)) 0)

/-- The effective height `point_total_height = mobile_height + point_elevation` with mobile height 1.5. -/
def rsrpPointTotal (cache : Cache) (point_lat point_lng : ℝ) : ℝ :=
  1.5 + lookupD cache (roundPt (point_lat, point_lng)) 0

/-- The `los_clear` flag `calculate_rsrp_with_enhanced_los` obtains from
`detailed_los_with_diffraction` (at the effective heights it computes). -/
def rsrpLosClear (cache : Cache)
    (site_lat site_lng point_lat point_lng frequency base_height : ℝ) : Bool :=
  (detailed_los_with_diffraction cache site_lat site_lng point_lat point_lng
    (rsrpSiteTotal cache site_lat site_lng base_height)
    (rsrpPointTotal cache point_lat point_lng) frequency).1

/-- Translation of `calculate_rsrp_with_enhanced_los` from `src/main.py` lines 147-196.
`math.log10(frequency)` raises a `ValueError` for non-positive frequency,
modelled as `Except.error ()`; every other branch returns a number. -/
def calculate_rsrp_with_enhanced_los (cache : Cache)
    (site_lat site_lng point_lat point_lng frequency base_height tx_power downtilt : ℝ)
    (environment : String) : Except Unit ℝ :=
  let distance_km := gcDistance site_lat site_lng point_lat point_lng
  if distance_km ≤ 0 then .ok (-140)
  else
    let site_total_height := rsrpSiteTotal cache site_lat site_lng base_height
    let point_total_height := rsrpPointTotal cache point_lat point_lng
    let lp := detailed_los_with_diffraction cache site_lat site_lng point_lat point_lng
      site_total_height point_total_height frequency
    if lp.1 = false then .ok (-140 + lp.2)
    else
      let elevation_angle := degrees (atan2 (site_total_height - point_total_height)
        (distance_km * 1000))
      let angle_diff := |elevation_angle - downtilt|
      let vertical_gain := if 3 < angle_diff then -6 * ((angle_diff - 3) / 2) ^ 2 else 0
      if base_height ≤ 0 ∨ distance_km ≤ 0 then .ok (-140)
      else if frequency ≤ 0 then .error ()
      else
        let path_loss := baselinePathLoss frequency site_total_height distance_km
        let rsrp := tx_power - path_loss + vertical_gain - shadowing environment
        .ok (max (-140) (min rsrp (-30)))

/-- Model of `np.linspace(a, b, n)` (with `endpoint=True`): `n` evenly spaced reals
from `a` to `b`; for `n = 1` numpy returns `[a]`. -/
def linspace (a b : ℝ) (n : ℕ) : List ℝ :=
  if n = 0 then []
  else if n = 1 then [a]
  else (List.range n).map (fun i : ℕ => a + (i : ℝ) * ((b - a) / ((n : ℝ) - 1)))

/-- The grid generation of `compute_coverage` (`src/main.py` lines 224-228):
outer loop over radial distances `np.linspace(0.01, radius, resolution)`,
inner loop over angles spanning the beamwidth around the azimuth. -/
def gridPoints (site_lat site_lng azimuth beamwidth radius : ℝ) (resolution : ℕ) :
    List (ℝ × ℝ) :=
  (linspace 0.01 radius resolution).flatMap (fun r =>
    (linspace (radians azimuth - radians (beamwidth / 2))
        (radians azimuth + radians (beamwidth / 2)) resolution).map
      (fun angle => (site_lat + r / 111 * Real.cos angle, site_lng + r / 111 * Real.sin angle)))

/-- Split a list into consecutive batches of size `bs`
(`uncached_points[i:i + batch_size]`). -/
def chunkList (bs : ℕ) (l : List Key) : List (List Key) :=
  if h : l = [] ∨ bs = 0 then []
  else l.take bs :: chunkList bs (l.drop bs)
  termination_by l.length
  decreasing_by
    simp only [not_or] at h
    have hl : l ≠ [] := h.1
    have hbs : bs ≠ 0 := h.2
    cases l with
    | nil => exact absurd rfl hl
    | cons x xs =>
      simp only [List.drop, List.length_cons]
      cases bs with
      | zero => exact absurd rfl hbs
      | succ m =>
        simp only [List.drop]
        calc (xs.drop m).length = xs.length - m := List.length_drop m xs
          _ ≤ xs.length := Nat.sub_le _ _
          _ < xs.length + 1 := Nat.lt_succ_self _

/-- The elevations the code appends for one batch: the API results on a
successful, length-matching response; a run of default zeros otherwise. -/
def batchOutcome (oracle : ℕ → ℕ → Option (List ℝ)) (r k : ℕ) (batch : List Key) : List ℝ :=
  match oracle r k with
  | some es => if es.length = batch.length then es else List.replicate batch.length 0
  | none => List.replicate batch.length 0

/-- Cache writes of one batch: `elevation_cache[point] = elevation` for each
(point, result) pair of a successful batch; nothing on failure. -/
def batchWrites (oracle : ℕ → ℕ → Option (List ℝ)) (r k : ℕ) (batch : List Key)
    (cache : Cache) : Cache :=
  match oracle r k with
  | some es =>
      if es.length = batch.length then
        (List.zip batch es).foldl (fun c kv => kv :: c) cache
      else cache
  | none => cache

/-- Process the batches of one retry round in order, threading the cache and
collecting the appended elevations. -/
def processChunks (oracle : ℕ → ℕ → Option (List ℝ)) (r : ℕ) :
    List (List Key) → ℕ → Cache → Cache × List ℝ
  | [], _, cache => (cache, [])
  | batch :: rest, k, cache =>
      let cache1 := batchWrites oracle r k batch cache
      let out1 := batchOutcome oracle r k batch
      let res := processChunks oracle r rest (k + 1) cache1
      (res.1, out1 ++ res.2)

/-- Elevations appended during one retry round, independent of the cache. -/
def chunksOut (oracle : ℕ → ℕ → Option (List ℝ)) (r : ℕ) : ℕ → List (List Key) → List ℝ
  | _, [] => []
  | k, batch :: rest => batchOutcome oracle r k batch ++ chunksOut oracle r (k + 1) rest

/-- The `while uncached_points and retries < max_retries` loop of
`fetch_elevation`: run retry rounds, refiltering the uncached points against
the cache after each round. -/
def feLoop (oracle : ℕ → ℕ → Option (List ℝ)) (bs : ℕ) :
    ℕ → ℕ → List Key → Cache → List ℝ → Cache × List ℝ
  | 0, _, _, cache, elevs => (cache, elevs)
  | fuel + 1, r, ucs, cache, elevs =>
      if ucs.isEmpty then (cache, elevs)
      else
        let step := processChunks oracle r (chunkList bs ucs) 0 cache
        let ucs' := ucs.filter (fun p => (lookupC step.1 p).isNone)
        feLoop oracle bs fuel (r + 1) ucs' step.1 (elevs ++ step.2)

/-- Translation of `fetch_elevation` from `src/main.py` lines 41-89. `uniq` stands for
`list({(round(lat,5), round(lng,5)) for ...})`, whose iteration order Python
leaves unspecified; `points` is the raw input. Returns the expanded
per-input-point elevations and the final cache. -/
def fetch_elevation (oracle : ℕ → ℕ → Option (List ℝ)) (uniq : List Key)
    (points : List (ℝ × ℝ)) (cache : Cache) (bs fuel : ℕ) : List ℝ × Cache :=
  let cachedElevs := uniq.filterMap (fun p => lookupC cache p)
  let uncached := uniq.filter (fun p => (lookupC cache p).isNone)
  let looped := feLoop oracle bs fuel 1 uncached cache cachedElevs
  let lookupTbl : Cache := List.zip uniq looped.2
  (points.map (fun p => lookupD lookupTbl (roundPt p) 0), looped.1)

/-- The per-grid-point RSRP loop of `compute_coverage` (lines 240-253),
propagating the `math.log10` domain error like the Python exception. -/
def coverageLoop (cache : Cache) (site_lat site_lng frequency base_height tx_power
    downtilt : ℝ) (environment : String) : List (ℝ × ℝ) → Except Unit (List (ℝ × ℝ × ℝ))
  | [] => .ok []
  | p :: rest =>
      match calculate_rsrp_with_enhanced_los cache site_lat site_lng p.1 p.2 frequency
          base_height tx_power downtilt environment with
      | .error e => .error e
      | .ok r =>
          match coverageLoop cache site_lat site_lng frequency base_height tx_power
              downtilt environment rest with
          | .error e => .error e
          | .ok tail => .ok ((p.1, p.2, r) :: tail)

/-- Translation of `compute_coverage` from `src/main.py` lines 198-255 for one request:
clear the cache, generate the grid, fetch elevations for `[site] + grid`,
populate the cache with the per-point elevations, then compute each sample.
Returns the response (or the propagated error) together with the final cache
(whose entry list is the full per-request write history, newest first). -/
def compute_coverage (oracle : ℕ → ℕ → Option (List ℝ)) (uniq : List Key)
    (site_lat site_lng frequency base_height downtilt : ℝ) (environment : String)
    (azimuth beamwidth radius : ℝ) (resolution : ℕ) :
    Except Unit (List (ℝ × ℝ × ℝ)) × Cache :=
  let tx_power : ℝ := 43
  let grid := gridPoints site_lat site_lng azimuth beamwidth radius resolution
  let fe := fetch_elevation oracle uniq ((site_lat, site_lng) :: grid) [] 300 2
  let point_elevations := fe.1.tail
  let cache2 := (List.zip grid point_elevations).foldl
    (fun c pe => (roundPt pe.1, pe.2) :: c) fe.2
  (coverageLoop cache2 site_lat site_lng frequency base_height tx_power downtilt
    environment grid, cache2)

/-- "Once a key is present its value is never overwritten with a different
one": all cache entries (the write history) agree on every key. -/
def KeyConsistent (c : Cache) : Prop :=
  ∀ kv ∈ c, ∀ kv' ∈ c, kv.1 = kv'.1 → kv.2 = kv'.2

/-- Every batch of the first retry round gets a successful, length-matching
response from the elevation API. -/
def firstRoundOK (oracle : ℕ → ℕ → Option (List ℝ)) (bs : ℕ) (uniq : List Key) : Prop :=
  ∀ j < (chunkList bs uniq).length,
    ∃ es, oracle 1 j = some es ∧ es.length = ((chunkList bs uniq).getD j []).length

/-- The signed value the LOS loop adds for intermediate sample `i`: the
(non-positive) Fresnel diffraction loss if the sample is obstructed, else 0. -/
def losLossAt (cache : Cache) (site_lat site_lng lat_step lng_step site_height point_height
    distance_km frequency : ℝ) (n i : ℕ) : ℝ :=
  if 0 < losHD cache site_lat site_lng lat_step lng_step site_height point_height n i then
    fresnel_zone_loss distance_km
      (losHD cache site_lat site_lng lat_step lng_step site_height point_height n i) frequency
  else 0

/-- Whether intermediate sample `i` is obstructed (terrain above the line). -/
def losObstructedB (cache : Cache) (site_lat site_lng lat_step lng_step site_height
    point_height : ℝ) (n i : ℕ) : Bool :=
  decide (0 < losHD cache site_lat site_lng lat_step lng_step site_height point_height n i)

/-- The accumulated diffraction loss over the obstructed intermediate segments
of the LOS walk, as a positive dB magnitude (`fresnel_zone_loss` returns its
losses as non-positive numbers; the code negates the accumulated total when
normalizing it into the penalty). -/
def losAccumLoss (cache : Cache)
    (site_lat site_lng point_lat point_lng site_height point_height frequency : ℝ) : ℝ :=
  ((List.range' 1 (losSegments (gcDistance site_lat site_lng point_lat point_lng) - 1)).map
    (fun i => -(losLossAt cache site_lat site_lng
      ((point_lat - site_lat) / (losSegments (gcDistance site_lat site_lng point_lat point_lng) : ℝ))
      ((point_lng - site_lng) / (losSegments (gcDistance site_lat site_lng point_lat point_lng) : ℝ))
      site_height point_height (gcDistance site_lat site_lng point_lat point_lng) frequency
      (losSegments (gcDistance site_lat site_lng point_lat point_lng)) i))).sum

/-- The single angle sampled in the end-to-end scenario of the spec
(resolution 1, azimuth 0, beamwidth 10): `np.linspace` with one sample
returns its start, `radians(0) - radians(10/2)`. -/
def scenarioAngle : ℝ := radians 0 - radians (10 / 2)

/-- The single grid point of the end-to-end scenario (site (0,0),
radius 1 km, resolution 1): radial distance 0.01 km at `scenarioAngle`. -/
def gridPoint8 : ℝ × ℝ :=
  (0 + 0.01 / 111 * Real.cos scenarioAngle, 0 + 0.01 / 111 * Real.sin scenarioAngle)

/-- A set-enumeration of the rounded points of the end-to-end scenario:
the site key and the grid point's key. -/
def uniq8 : List Key := [((0 : ℝ), (0 : ℝ)), roundPt gridPoint8]

/-- Flat terrain: every elevation lookup succeeds with elevation 0. -/
def oracle8 : ℕ → ℕ → Option (List ℝ) := fun _ _ => some [0, 0]

/-- The full end-to-end run of the spec's first scenario: site (0,0),
900 MHz, antenna 30 m, flat terrain, downtilt 0, rural, resolution 1,
radius 1 km, azimuth 0, beamwidth 10. -/
def run8 : Except Unit (List (ℝ × ℝ × ℝ)) × Cache :=
  compute_coverage oracle8 uniq8 0 0 900 30 0 "rural" 0 10 1 1

end

/-! ## Basic lemmas about the diffraction model -/

theorem fresnel_cases (d hd f : ℝ) :
    ((d ≤ 0 ∨ f ≤ 0) → fresnel_zone_loss d hd f = -140) ∧
    (0 < d → 0 < f →
      (Real.sqrt (300 / f * d * 1000 / 2) < hd →
        fresnel_zone_loss d hd f =
          -20 * log10 (hd / Real.sqrt (300 / f * d * 1000 / 2))) ∧
      (0 < hd → hd ≤ Real.sqrt (300 / f * d * 1000 / 2) →
        fresnel_zone_loss d hd f = -6 * (hd / Real.sqrt (300 / f * d * 1000 / 2)) ^ 2) ∧
      (hd ≤ 0 → fresnel_zone_loss d hd f = 0)) := by
  constructor
  · intro h
    unfold fresnel_zone_loss
    rw [if_pos h]
  · intro hd0 hf0
    have hpos : 0 < 300 / f * d * 1000 / 2 := by positivity
    have hfr : 0 < Real.sqrt (300 / f * d * 1000 / 2) := Real.sqrt_pos.mpr hpos
    have hguard : ¬(d ≤ 0 ∨ f ≤ 0) := by push_neg; exact ⟨hd0, hf0⟩
    refine ⟨fun hblock => ?_, fun hp hle => ?_, fun hneg => ?_⟩
    · unfold fresnel_zone_loss
      rw [if_neg hguard, if_neg (not_le.mpr hfr), if_pos hblock]
    · unfold fresnel_zone_loss
      rw [if_neg hguard, if_neg (not_le.mpr hfr), if_neg (not_lt.mpr hle), if_pos hp]
    · unfold fresnel_zone_loss
      rw [if_neg hguard, if_neg (not_le.mpr hfr),
        if_neg (not_lt.mpr (le_trans hneg (le_of_lt hfr))), if_neg (not_lt.mpr hneg)]

theorem fresnel_zone_loss_nonpos (d hd f : ℝ) : fresnel_zone_loss d hd f ≤ 0 := by
  rcases le_or_lt d 0 with h | h
  · rw [(fresnel_cases d hd f).1 (Or.inl h)]; norm_num
  rcases le_or_lt f 0 with h2 | h2
  · rw [(fresnel_cases d hd f).1 (Or.inr h2)]; norm_num
  rcases le_or_lt hd 0 with h3 | h3
  · rw [((fresnel_cases d hd f).2 h h2).2.2 h3]
  rcases le_or_lt hd (Real.sqrt (300 / f * d * 1000 / 2)) with h4 | h4
  · rw [((fresnel_cases d hd f).2 h h2).2.1 h3 h4]
    nlinarith [sq_nonneg (hd / Real.sqrt (300 / f * d * 1000 / 2))]
  · rw [((fresnel_cases d hd f).2 h h2).1 h4]
    have hfr : 0 < Real.sqrt (300 / f * d * 1000 / 2) := Real.sqrt_pos.mpr (by positivity)
    have h1' : (1 : ℝ) ≤ hd / Real.sqrt (300 / f * d * 1000 / 2) := (one_le_div hfr).mpr h4.le
    have hlog : 0 ≤ log10 (hd / Real.sqrt (300 / f * d * 1000 / 2)) :=
      Real.logb_nonneg (by norm_num) h1'
    nlinarith

/-- C7: the Fresnel diffraction loss function satisfies exactly the specified
piecewise definition: sentinel floor -140 for non-positive distance or
frequency; otherwise, with the first Fresnel zone radius
`sqrt((300/f) * d * 1000 / 2)`, severe loss `-20*log10(hd/r)` above the
radius, partial loss `-6*(hd/r)^2` inside it, and 0 for `hd ≤ 0`
(in particular 0 for `hd = 0` at any valid distance/frequency). -/
theorem C7_fresnel_piecewise (d hd f : ℝ) :
    ((d ≤ 0 ∨ f ≤ 0) → fresnel_zone_loss d hd f = -140) ∧
    (0 < d → 0 < f →
      (Real.sqrt (300 / f * d * 1000 / 2) < hd →
        fresnel_zone_loss d hd f =
          -20 * log10 (hd / Real.sqrt (300 / f * d * 1000 / 2))) ∧
      (0 < hd → hd ≤ Real.sqrt (300 / f * d * 1000 / 2) →
        fresnel_zone_loss d hd f = -6 * (hd / Real.sqrt (300 / f * d * 1000 / 2)) ^ 2) ∧
      (hd ≤ 0 → fresnel_zone_loss d hd f = 0)) :=
  fresnel_cases d hd f

theorem C7_fresnel_piecewise_witness :
    fresnel_zone_loss 0 5 900 = -140 ∧ fresnel_zone_loss 1 0 900 = 0 :=
  ⟨(C7_fresnel_piecewise 0 5 900).1 (Or.inl le_rfl),
    ((C7_fresnel_piecewise 1 0 900).2 (by norm_num) (by norm_num)).2.2 le_rfl⟩

/-! ## The LOS loop as a sum over segments -/

theorem losStep_fold (cache : Cache) (slat slng lst lngst sh ph dist f : ℝ) (n : ℕ)
    (l : List ℕ) (a : ℝ) (b : Bool) :
    l.foldl (losStep cache slat slng lst lngst sh ph dist f n) (a, b) =
      (a + (l.map (losLossAt cache slat slng lst lngst sh ph dist f n)).sum,
        b && l.all (fun i => ! losObstructedB cache slat slng lst lngst sh ph n i)) := by
  induction l generalizing a b with
  | nil => simp
  | cons x xs ih =>
    simp only [List.foldl_cons, List.map_cons, List.sum_cons, List.all_cons]
    by_cases h : 0 < losHD cache slat slng lst lngst sh ph n x
    · have hstep : losStep cache slat slng lst lngst sh ph dist f n (a, b) x =
          (a + fresnel_zone_loss dist (losHD cache slat slng lst lngst sh ph n x) f, false) := by
        unfold losStep
        rw [if_pos h]
      have h1 : losLossAt cache slat slng lst lngst sh ph dist f n x =
          fresnel_zone_loss dist (losHD cache slat slng lst lngst sh ph n x) f := by
        unfold losLossAt
        rw [if_pos h]
      have h2 : losObstructedB cache slat slng lst lngst sh ph n x = true := decide_eq_true h
      rw [hstep, ih, h1, h2]
      simp [add_assoc]
    · have hstep : losStep cache slat slng lst lngst sh ph dist f n (a, b) x = (a, b) := by
        unfold losStep
        rw [if_neg h]
      have h1 : losLossAt cache slat slng lst lngst sh ph dist f n x = 0 := by
        unfold losLossAt
        rw [if_neg h]
      have h2 : losObstructedB cache slat slng lst lngst sh ph n x = false :=
        decide_eq_false h
      rw [hstep, ih, h1, h2]
      simp

theorem detailed_los_eq (cache : Cache) (slat slng plat plng sh ph f : ℝ)
    (h : 0 < gcDistance slat slng plat plng) :
    detailed_los_with_diffraction cache slat slng plat plng sh ph f =
      ((List.range' 1 (losSegments (gcDistance slat slng plat plng) - 1)).all
        (fun i => ! losObstructedB cache slat slng
          ((plat - slat) / (losSegments (gcDistance slat slng plat plng) : ℝ))
          ((plng - slng) / (losSegments (gcDistance slat slng plat plng) : ℝ)) sh ph
          (losSegments (gcDistance slat slng plat plng)) i),
      min 20 (-(((List.range' 1 (losSegments (gcDistance slat slng plat plng) - 1)).map
        (losLossAt cache slat slng
          ((plat - slat) / (losSegments (gcDistance slat slng plat plng) : ℝ))
          ((plng - slng) / (losSegments (gcDistance slat slng plat plng) : ℝ)) sh ph
          (gcDistance slat slng plat plng) f
          (losSegments (gcDistance slat slng plat plng)))).sum) /
        (losSegments (gcDistance slat slng plat plng) : ℝ))) := by
  simp only [detailed_los_with_diffraction]
  rw [if_neg (not_le.mpr h), losStep_fold]
  simp

theorem losSegments_ge_ten (d : ℝ) : 10 ≤ losSegments d := by
  unfold losSegments
  have h := le_max_left (10 : ℤ) (min 200 (pyInt (d * 100)))
  omega

theorem list_sum_nonpos {l : List ℝ} (h : ∀ x ∈ l, x ≤ 0) : l.sum ≤ 0 := by
  induction l with
  | nil => simp
  | cons x xs ih =>
    have hx := h x (List.mem_cons_self _ _)
    have hxs := ih (fun y hy => h y (List.mem_cons_of_mem _ hy))
    simp only [List.sum_cons]
    linarith

theorem losLossAt_nonpos (cache : Cache) (slat slng lst lngst sh ph dist f : ℝ) (n i : ℕ) :
    losLossAt cache slat slng lst lngst sh ph dist f n i ≤ 0 := by
  unfold losLossAt
  split_ifs
  · exact fresnel_zone_loss_nonpos _ _ _
  · exact le_refl 0

theorem los_penalty_bounds (cache : Cache) (slat slng plat plng sh ph f : ℝ) :
    0 ≤ (detailed_los_with_diffraction cache slat slng plat plng sh ph f).2 ∧
    (detailed_los_with_diffraction cache slat slng plat plng sh ph f).2 ≤ 20 := by
  by_cases h : gcDistance slat slng plat plng ≤ 0
  · simp only [detailed_los_with_diffraction]
    rw [if_pos h]
    norm_num
  · have h' := not_le.mp h
    rw [detailed_los_eq cache slat slng plat plng sh ph f h']
    constructor
    · refine le_min (by norm_num) (div_nonneg ?_ (Nat.cast_nonneg _))
      rw [neg_nonneg]
      refine list_sum_nonpos ?_
      intro x hx
      obtain ⟨i, _, rfl⟩ := List.mem_map.mp hx
      exact losLossAt_nonpos _ _ _ _ _ _ _ _ _ _ _
    · exact min_le_left _ _

theorem sum_map_neg (l : List ℕ) (g : ℕ → ℝ) :
    (l.map (fun i => -(g i))).sum = -((l.map g).sum) := by
  induction l with
  | nil => simp
  | cons x xs ih =>
    simp only [List.map_cons, List.sum_cons, ih]
    ring

theorem lookupD_le (c : Cache) (k : Key) (d m : ℝ) (hvals : ∀ kv ∈ c, kv.2 ≤ m)
    (hd : d ≤ m) : lookupD c k d ≤ m := by
  induction c with
  | nil => simpa [lookupD, lookupC] using hd
  | cons kv rest ih =>
    obtain ⟨k', v'⟩ := kv
    have hv : v' ≤ m := hvals (k', v') (List.mem_cons_self _ _)
    have ih' := ih (fun x hx => hvals x (List.mem_cons_of_mem _ hx))
    unfold lookupD lookupC
    split_ifs with h
    · simpa using hv
    · exact ih'

theorem lookupD_eq_of_all_eq (c : Cache) (k : Key) (v : ℝ) (hvals : ∀ kv ∈ c, kv.2 = v) :
    lookupD c k v = v := by
  induction c with
  | nil => simp [lookupD, lookupC]
  | cons kv rest ih =>
    obtain ⟨k', v'⟩ := kv
    have hv : v' = v := hvals (k', v') (List.mem_cons_self _ _)
    have ih' := ih (fun x hx => hvals x (List.mem_cons_of_mem _ hx))
    unfold lookupD lookupC
    split_ifs with h
    · simpa using hv
    · exact ih'

/-- When every cached elevation is at most `m` (with `0 ≤ m`) and both
effective heights are at least `m`, no intermediate sample can be obstructed:
the analysis returns `(clear = true, penalty = 0)`. -/
theorem detailed_los_clear_of_le (cache : Cache) (slat slng plat plng sh ph f m : ℝ)
    (hdist : 0 < gcDistance slat slng plat plng) (hm0 : 0 ≤ m)
    (hvals : ∀ kv ∈ cache, kv.2 ≤ m) (hs : m ≤ sh) (hp : m ≤ ph) :
    detailed_los_with_diffraction cache slat slng plat plng sh ph f = (true, 0) := by
  rw [detailed_los_eq cache slat slng plat plng sh ph f hdist]
  have hn : 10 ≤ losSegments (gcDistance slat slng plat plng) :=
    losSegments_ge_ten _
  have hnotobs : ∀ i ∈ List.range' 1 (losSegments (gcDistance slat slng plat plng) - 1),
      ¬ 0 < losHD cache slat slng
        ((plat - slat) / (losSegments (gcDistance slat slng plat plng) : ℝ))
        ((plng - slng) / (losSegments (gcDistance slat slng plat plng) : ℝ)) sh ph
        (losSegments (gcDistance slat slng plat plng)) i := by
    intro i hi
    have hmem := List.mem_range'_1.mp hi
    have hile : (i : ℝ) ≤ (losSegments (gcDistance slat slng plat plng) : ℝ) := by
      have : i < 1 + (losSegments (gcDistance slat slng plat plng) - 1) := hmem.2
      have : i ≤ losSegments (gcDistance slat slng plat plng) := by omega
      exact_mod_cast this
    have hnpos : (0 : ℝ) < (losSegments (gcDistance slat slng plat plng) : ℝ) := by
      have : (0 : ℕ) < losSegments (gcDistance slat slng plat plng) := by omega
      exact_mod_cast this
    have hratio0 : (0 : ℝ) ≤ (i : ℝ) / (losSegments (gcDistance slat slng plat plng) : ℝ) := by
      positivity
    have hratio1 : (i : ℝ) / (losSegments (gcDistance slat slng plat plng) : ℝ) ≤ 1 :=
      (div_le_one hnpos).mpr hile
    have hexp : m ≤ sh + (ph - sh) * ((i : ℝ) /
        (losSegments (gcDistance slat slng plat plng) : ℝ)) := by
      nlinarith
    have hlk : lookupD cache
        (round5 (slat + (i : ℝ) *
          ((plat - slat) / (losSegments (gcDistance slat slng plat plng) : ℝ))),
         round5 (slng + (i : ℝ) *
          ((plng - slng) / (losSegments (gcDistance slat slng plat plng) : ℝ)))) 0 ≤ m :=
      lookupD_le _ _ _ _ hvals hm0
    unfold losHD losElev
    rw [not_lt]
    linarith
  rw [Prod.mk.injEq]
  refine ⟨?_, ?_⟩
  · refine List.all_eq_true.mpr ?_
    intro i hi
    simp only [Bool.not_eq_true', losObstructedB, decide_eq_false_iff_not]
    exact hnotobs i hi
  · have hsum : ((List.range' 1 (losSegments (gcDistance slat slng plat plng) - 1)).map
        (losLossAt cache slat slng
          ((plat - slat) / (losSegments (gcDistance slat slng plat plng) : ℝ))
          ((plng - slng) / (losSegments (gcDistance slat slng plat plng) : ℝ)) sh ph
          (gcDistance slat slng plat plng) f
          (losSegments (gcDistance slat slng plat plng)))).sum = 0 := by
      refine List.sum_eq_zero ?_
      intro x hx
      obtain ⟨i, hi, rfl⟩ := List.mem_map.mp hx
      unfold losLossAt
      rw [if_neg (hnotobs i hi)]
    rw [hsum]
    norm_num

/-- C9: whenever the LOS analysis reports clear = true, the returned penalty
is exactly 0 (no obstructed segment contributes, so the accumulated loss is 0
and `min(20, -0/segments) = 0`). -/
theorem C9_clear_penalty_zero (cache : Cache) (slat slng plat plng sh ph f : ℝ)
    (h : (detailed_los_with_diffraction cache slat slng plat plng sh ph f).1 = true) :
    (detailed_los_with_diffraction cache slat slng plat plng sh ph f).2 = 0 := by
  by_cases hdist : gcDistance slat slng plat plng ≤ 0
  · exfalso
    simp only [detailed_los_with_diffraction] at h
    rw [if_pos hdist] at h
    simp at h
  · have h' := not_le.mp hdist
    rw [detailed_los_eq cache slat slng plat plng sh ph f h'] at h ⊢
    simp only at h ⊢
    have hall := List.all_eq_true.mp h
    have hsum : ((List.range' 1 (losSegments (gcDistance slat slng plat plng) - 1)).map
        (losLossAt cache slat slng
          ((plat - slat) / (losSegments (gcDistance slat slng plat plng) : ℝ))
          ((plng - slng) / (losSegments (gcDistance slat slng plat plng) : ℝ)) sh ph
          (gcDistance slat slng plat plng) f
          (losSegments (gcDistance slat slng plat plng)))).sum = 0 := by
      refine List.sum_eq_zero ?_
      intro x hx
      obtain ⟨i, hi, rfl⟩ := List.mem_map.mp hx
      have hobs := hall i hi
      simp only [Bool.not_eq_true', losObstructedB, decide_eq_false_iff_not] at hobs
      unfold losLossAt
      rw [if_neg hobs]
    rw [hsum]
    norm_num

theorem C9_clear_penalty_zero_witness :
    (detailed_los_with_diffraction [] 0 0 0.01 0 31 1.5 900).2 = 0 := by
  refine C9_clear_penalty_zero [] 0 0 0.01 0 31 1.5 900 ?_
  have hdist : 0 < gcDistance 0 0 0.01 0 := by
    unfold gcDistance
    have h1 : (0 : ℝ) < (0 - 0.01) ^ 2 + (0 - 0) ^ 2 := by norm_num
    have := Real.sqrt_pos.mpr h1
    linarith
  rw [detailed_los_clear_of_le [] 0 0 0.01 0 31 1.5 900 0 hdist le_rfl
    (by intro kv hkv; simp at hkv) (by norm_num) (by norm_num)]

/-- C6: for positive distance the LOS penalty equals
`min(20, accumulated_loss / segments)` where `losAccumLoss` is the
accumulated Fresnel diffraction loss (as a positive dB magnitude) of the
obstructed segments; the penalty always lies in [0, 20]; and any obstructed
intermediate sample forces clear = false with a penalty ≥ 0. -/
theorem C6_penalty_normalized (cache : Cache) (slat slng plat plng sh ph f : ℝ)
    (hdist : 0 < gcDistance slat slng plat plng) :
    (detailed_los_with_diffraction cache slat slng plat plng sh ph f).2 =
      min 20 (losAccumLoss cache slat slng plat plng sh ph f /
        (losSegments (gcDistance slat slng plat plng) : ℝ)) ∧
    0 ≤ (detailed_los_with_diffraction cache slat slng plat plng sh ph f).2 ∧
    (detailed_los_with_diffraction cache slat slng plat plng sh ph f).2 ≤ 20 ∧
    (∀ i ∈ List.range' 1 (losSegments (gcDistance slat slng plat plng) - 1),
      0 < losHD cache slat slng
          ((plat - slat) / (losSegments (gcDistance slat slng plat plng) : ℝ))
          ((plng - slng) / (losSegments (gcDistance slat slng plat plng) : ℝ)) sh ph
          (losSegments (gcDistance slat slng plat plng)) i →
        (detailed_los_with_diffraction cache slat slng plat plng sh ph f).1 = false ∧
        0 ≤ (detailed_los_with_diffraction cache slat slng plat plng sh ph f).2) := by
  have hbounds := los_penalty_bounds cache slat slng plat plng sh ph f
  refine ⟨?_, hbounds.1, hbounds.2, ?_⟩
  · rw [detailed_los_eq cache slat slng plat plng sh ph f hdist]
    unfold losAccumLoss
    rw [sum_map_neg]
  · intro i hi hobs
    refine ⟨?_, hbounds.1⟩
    rw [detailed_los_eq cache slat slng plat plng sh ph f hdist]
    simp only
    rw [List.all_eq_false]
    refine ⟨i, hi, ?_⟩
    simp only [Bool.not_eq_true', Bool.not_eq_false, losObstructedB]
    exact decide_eq_true hobs

theorem C6_penalty_normalized_witness :
    (detailed_los_with_diffraction [] 0 0 0.01 0 31 1.5 900).2 =
      min 20 (losAccumLoss [] 0 0 0.01 0 31 1.5 900 /
        (losSegments (gcDistance 0 0 0.01 0) : ℝ)) ∧
    0 ≤ (detailed_los_with_diffraction [] 0 0 0.01 0 31 1.5 900).2 := by
  have hdist : 0 < gcDistance 0 0 0.01 0 := by
    unfold gcDistance
    have h1 : (0 : ℝ) < (0 - 0.01) ^ 2 + (0 - 0) ^ 2 := by norm_num
    have := Real.sqrt_pos.mpr h1
    linarith
  have h := C6_penalty_normalized [] 0 0 0.01 0 31 1.5 900 hdist
  exact ⟨h.1, h.2.1⟩

/-! ## RSRP bounds and error behaviour -/

theorem calculate_rsrp_ok_bounds (cache : Cache) (slat slng plat plng f base tx dt : ℝ)
    (env : String) (v : ℝ)
    (h : calculate_rsrp_with_enhanced_los cache slat slng plat plng f base tx dt env = .ok v) :
    -140 ≤ v ∧ v ≤ -30 := by
  simp only [calculate_rsrp_with_enhanced_los] at h
  split_ifs at h with h1 h2 h3 h4 h5 <;>
    try simp only [Except.ok.injEq] at h
  · rw [← h]
    norm_num
  · have hb := los_penalty_bounds cache slat slng plat plng
      (rsrpSiteTotal cache slat slng base) (rsrpPointTotal cache plat plng) f
    rw [← h]
    constructor <;> linarith [hb.1, hb.2]
  · rw [← h]
    norm_num
  · rw [← h]
    exact ⟨le_max_left _ _, max_le (by norm_num) (min_le_right _ _)⟩
  · rw [← h]
    exact ⟨le_max_left _ _, max_le (by norm_num) (min_le_right _ _)⟩

theorem coverageLoop_mem_bounds (cache : Cache) (slat slng f base tx dt : ℝ) (env : String)
    (pts : List (ℝ × ℝ)) (samples : List (ℝ × ℝ × ℝ))
    (h : coverageLoop cache slat slng f base tx dt env pts = .ok samples) :
    ∀ s ∈ samples, -140 ≤ s.2.2 ∧ s.2.2 ≤ -30 := by
  induction pts generalizing samples with
  | nil =>
    simp only [coverageLoop, Except.ok.injEq] at h
    subst h
    intro s hs
    simp at hs
  | cons p rest ih =>
    simp only [coverageLoop] at h
    cases hc : calculate_rsrp_with_enhanced_los cache slat slng p.1 p.2 f base tx dt env with
    | error e =>
      rw [hc] at h
      simp at h
    | ok r =>
      rw [hc] at h
      cases ht : coverageLoop cache slat slng f base tx dt env rest with
      | error e =>
        rw [ht] at h
        simp at h
      | ok tail =>
        rw [ht] at h
        simp only [Except.ok.injEq] at h
        subst h
        intro s hs
        rcases List.mem_cons.mp hs with hs | hs
        · subst hs
          exact calculate_rsrp_ok_bounds cache slat slng p.1 p.2 f base tx dt env r hc
        · exact ih tail ht s hs

/-- C1: every coverage sample produced by `compute_coverage` carries an rsrp
value in the interval [-140, -30] (sentinel branches return -140, blocked
paths return -140 + penalty with penalty in [0, 20], and the clear-path value
is clamped). -/
theorem C1_rsrp_in_range (oracle : ℕ → ℕ → Option (List ℝ)) (uniq : List Key)
    (slat slng f base dt : ℝ) (env : String) (az bw radius : ℝ) (R : ℕ)
    (samples : List (ℝ × ℝ × ℝ))
    (h : (compute_coverage oracle uniq slat slng f base dt env az bw radius R).1 =
      .ok samples) :
    ∀ s ∈ samples, -140 ≤ s.2.2 ∧ s.2.2 ≤ -30 := by
  simp only [compute_coverage] at h
  exact coverageLoop_mem_bounds _ _ _ _ _ _ _ _ _ _ h

/-- C2 counterexample: with frequency 0 (non-positive), positive distance,
positive antenna height and a clear path, `math.log10(frequency)` raises a
ValueError: the computation does not return a numeric result. -/
theorem C2_counterexample :
    calculate_rsrp_with_enhanced_los [] 0 0 0.01 0 0 30 43 0 "rural" = .error () := by
  have hdist : gcDistance 0 0 0.01 0 = 1.11 := by
    unfold gcDistance
    rw [show ((0 : ℝ) - 0.01) ^ 2 + (0 - 0) ^ 2 = 0.01 ^ 2 by norm_num,
      Real.sqrt_sq (by norm_num)]
    norm_num
  have hsite : rsrpSiteTotal [] 0 0 30 = 30 := by
    simp [rsrpSiteTotal, lookupD, lookupC]
  have hpoint : rsrpPointTotal [] 0.01 0 = 1.5 := by
    simp [rsrpPointTotal, lookupD, lookupC]
  have hlp : detailed_los_with_diffraction [] 0 0 0.01 0 30 1.5 0 = (true, 0) := by
    refine detailed_los_clear_of_le [] 0 0 0.01 0 30 1.5 0 0 ?_ le_rfl
      (by intro kv hkv; simp at hkv) (by norm_num) (by norm_num)
    rw [hdist]
    norm_num
  simp only [calculate_rsrp_with_enhanced_los]
  rw [hdist, hsite, hpoint, hlp]
  rw [if_neg (by norm_num : ¬(1.11 : ℝ) ≤ 0)]
  rw [if_neg (by simp : ¬((true, (0 : ℝ)).1 = false))]
  rw [if_neg (by norm_num : ¬((30 : ℝ) ≤ 0 ∨ (1.11 : ℝ) ≤ 0))]
  rw [if_pos (le_refl (0 : ℝ))]

/-- C2 amended: for every input with positive carrier frequency the RSRP
computation returns a numeric result on every branch; (by `C2_counterexample`,
for non-positive frequency together with positive distance, positive antenna
height and a clear path, the code instead raises a log10 domain error). -/
theorem C2_total_on_positive_frequency (cache : Cache)
    (slat slng plat plng f base tx dt : ℝ) (env : String) (hf : 0 < f) :
    (calculate_rsrp_with_enhanced_los cache slat slng plat plng f base tx dt env).isOk =
      true := by
  simp only [calculate_rsrp_with_enhanced_los]
  split_ifs with h1 h2 h3 h4 h5
  · rfl
  · rfl
  · rfl
  · exact absurd h4 (not_le.mpr hf)
  · rfl
  · rfl

theorem C2_total_on_positive_frequency_witness :
    (calculate_rsrp_with_enhanced_los [] 0 0 0.01 0 900 30 43 0 "rural").isOk = true :=
  C2_total_on_positive_frequency [] 0 0 0.01 0 900 30 43 0 "rural" (by norm_num)

/-- C10: on a clear-LOS input with non-positive configured antenna base
height, the RSRP computation returns exactly -140: the guard checks the raw
`base_height` even though the path-loss formula would use the effective
height `max(1, base_height + site_elevation) ≥ 1`. -/
theorem C10_base_height_guard (cache : Cache) (slat slng plat plng f base tx dt : ℝ)
    (env : String) (hb : base ≤ 0)
    (hclear : rsrpLosClear cache slat slng plat plng f base = true) :
    calculate_rsrp_with_enhanced_los cache slat slng plat plng f base tx dt env =
      .ok (-140) := by
  unfold rsrpLosClear at hclear
  simp only [calculate_rsrp_with_enhanced_los]
  split_ifs with h1 h2 h3 h4 h5
  · rfl
  · rw [hclear] at h2
    exact absurd h2 (by simp)
  · rfl
  · exact absurd (Or.inl hb) h3
  · exact absurd (Or.inl hb) h3
  · exact absurd (Or.inl hb) h3

theorem round5_zero : round5 0 = 0 := by
  simp [round5]

theorem round5_eval (x : ℝ) (n : ℤ) (h1 : (n : ℝ) ≤ x * 100000 + 1 / 2)
    (h2 : x * 100000 + 1 / 2 < (n : ℝ) + 1) : round5 x = (n : ℝ) / 100000 := by
  unfold round5
  rw [round_eq, Int.floor_eq_iff.mpr ⟨h1, h2⟩]

theorem round5_point01 : round5 0.01 = 0.01 := by
  rw [round5_eval 0.01 1000 (by norm_num) (by norm_num)]
  norm_num

theorem C10_base_height_guard_witness :
    calculate_rsrp_with_enhanced_los [((0, 0), 5), ((0.01, 0), 5)] 0 0 0.01 0 900 0 43 0
      "rural" = .ok (-140) := by
  have hdist : 0 < gcDistance 0 0 0.01 0 := by
    unfold gcDistance
    have h1 : (0 : ℝ) < (0 - 0.01) ^ 2 + (0 - 0) ^ 2 := by norm_num
    have := Real.sqrt_pos.mpr h1
    linarith
  have hvals : ∀ kv ∈ ([((0, 0), 5), ((0.01, 0), 5)] : Cache), kv.2 ≤ 5 := by
    intro kv hkv
    simp only [List.mem_cons, List.not_mem_nil, or_false] at hkv
    rcases hkv with rfl | rfl <;> norm_num
  have hsite : rsrpSiteTotal [((0, 0), 5), ((0.01, 0), 5)] 0 0 0 = 5 := by
    unfold rsrpSiteTotal roundPt
    simp only [round5_zero]
    norm_num [lookupD, lookupC, max_def]
  have hpoint : rsrpPointTotal [((0, 0), 5), ((0.01, 0), 5)] 0.01 0 = 6.5 := by
    unfold rsrpPointTotal roundPt
    simp only [round5_zero, round5_point01]
    have hl : lookupD [((0, 0), 5), ((0.01, 0), 5)] ((0.01 : ℝ), (0 : ℝ)) 0 = 5 := by
      norm_num [lookupD, lookupC]
    rw [hl]
    norm_num
  have hclear : rsrpLosClear [((0, 0), 5), ((0.01, 0), 5)] 0 0 0.01 0 900 0 = true := by
    unfold rsrpLosClear
    rw [hsite, hpoint]
    rw [detailed_los_clear_of_le _ 0 0 0.01 0 5 6.5 900 5 hdist (by norm_num) hvals
      (by norm_num) (by norm_num)]
  exact C10_base_height_guard _ 0 0 0.01 0 900 0 43 0 "rural" le_rfl hclear

/-! ## Grid generation -/

theorem linspace_length (a b : ℝ) (n : ℕ) : (linspace a b n).length = n := by
  unfold linspace
  split_ifs with h1 h2
  · simp [h1]
  · simp [h2]
  · rw [List.length_map, List.length_range]

theorem linspace_mem_bounds (a b : ℝ) (n : ℕ) (hab : a ≤ b) (x : ℝ)
    (hx : x ∈ linspace a b n) : a ≤ x ∧ x ≤ b := by
  unfold linspace at hx
  split_ifs at hx with h1 h2
  · simp at hx
  · simp at hx
    subst hx
    exact ⟨le_rfl, hab⟩
  · obtain ⟨i, hi, rfl⟩ := List.mem_map.mp hx
    have hiR := List.mem_range.mp hi
    have hn2 : 2 ≤ n := by omega
    have hn1 : (0 : ℝ) < (n : ℝ) - 1 := by
      have : (2 : ℝ) ≤ (n : ℝ) := by exact_mod_cast hn2
      linarith
    have hi' : (i : ℝ) ≤ (n : ℝ) - 1 := by
      have h : i ≤ n - 1 := by omega
      have h' : (i : ℝ) ≤ ((n - 1 : ℕ) : ℝ) := by exact_mod_cast h
      rw [Nat.cast_sub (by omega)] at h'
      simpa using h'
    have hstep : 0 ≤ (b - a) / ((n : ℝ) - 1) := div_nonneg (by linarith) hn1.le
    constructor
    · have : 0 ≤ (i : ℝ) * ((b - a) / ((n : ℝ) - 1)) :=
        mul_nonneg (Nat.cast_nonneg _) hstep
      linarith
    · have hle : (i : ℝ) * ((b - a) / ((n : ℝ) - 1)) ≤
          ((n : ℝ) - 1) * ((b - a) / ((n : ℝ) - 1)) :=
        mul_le_mul_of_nonneg_right hi' hstep
      have heq : ((n : ℝ) - 1) * ((b - a) / ((n : ℝ) - 1)) = b - a := by
        field_simp
      linarith

theorem length_flatMap_const {α β : Type} (l : List α) (f : α → List β) (m : ℕ)
    (h : ∀ a ∈ l, (f a).length = m) : (l.flatMap f).length = l.length * m := by
  induction l with
  | nil => simp
  | cons x xs ih =>
    have hcons : (x :: xs).flatMap f = f x ++ xs.flatMap f := rfl
    rw [hcons, List.length_append, h x (List.mem_cons_self _ _),
      ih (fun a ha => h a (List.mem_cons_of_mem _ ha)), List.length_cons]
    ring

theorem gcDistance_polar (slat slng r θ : ℝ) (hr : 0 ≤ r) :
    gcDistance slat slng (slat + r / 111 * Real.cos θ) (slng + r / 111 * Real.sin θ) = r := by
  unfold gcDistance
  have h1 : (slat - (slat + r / 111 * Real.cos θ)) ^ 2 +
      (slng - (slng + r / 111 * Real.sin θ)) ^ 2 =
      (r / 111) ^ 2 * (Real.sin θ ^ 2 + Real.cos θ ^ 2) := by
    ring
  rw [h1, Real.sin_sq_add_cos_sq, mul_one, Real.sqrt_sq (by positivity)]
  exact div_mul_cancel₀ r (by norm_num)

/-- C5 amended: for positive resolution R, radius at least 0.01 km and
positive beamwidth, grid generation yields exactly R*R points, and every
generated point arises from a radial distance r in (0, radius] (in fact in
[0.01, radius]) and an angle within [azimuth - beamwidth/2,
azimuth + beamwidth/2] (in radians), its great-circle distance from the site
being exactly r. (The original claim, for every positive radius, fails for
radius < 0.01 by `C5_counterexample`: the innermost sampled radial distance
is the constant 0.01.) -/
theorem C5_grid_points (slat slng az bw radius : ℝ) (R : ℕ) (hR : 0 < R)
    (hrad : 0.01 ≤ radius) (hbw : 0 < bw) :
    (gridPoints slat slng az bw radius R).length = R * R ∧
    ∀ p ∈ gridPoints slat slng az bw radius R, ∃ r θ,
      r ∈ linspace 0.01 radius R ∧
      θ ∈ linspace (radians az - radians (bw / 2)) (radians az + radians (bw / 2)) R ∧
      p = (slat + r / 111 * Real.cos θ, slng + r / 111 * Real.sin θ) ∧
      gcDistance slat slng p.1 p.2 = r ∧
      0 < r ∧ r ≤ radius ∧
      radians az - radians (bw / 2) ≤ θ ∧ θ ≤ radians az + radians (bw / 2) := by
  constructor
  · unfold gridPoints
    rw [length_flatMap_const _ _ R (fun a _ => by rw [List.length_map, linspace_length]),
      linspace_length]
  · intro p hp
    unfold gridPoints at hp
    obtain ⟨r, hr, hp2⟩ := List.mem_flatMap.mp hp
    obtain ⟨θ, hθ, rfl⟩ := List.mem_map.mp hp2
    have hrb := linspace_mem_bounds 0.01 radius R hrad r hr
    have hangle0 : 0 ≤ radians (bw / 2) := by
      unfold radians
      have := Real.pi_pos
      positivity
    have hθb := linspace_mem_bounds (radians az - radians (bw / 2))
      (radians az + radians (bw / 2)) R (by linarith) θ hθ
    refine ⟨r, θ, hr, hθ, rfl, ?_, by linarith [hrb.1], hrb.2, hθb.1, hθb.2⟩
    exact gcDistance_polar slat slng r θ (by linarith [hrb.1])

theorem C5_grid_points_witness :
    (gridPoints 0 0 0 2 1 1).length = 1 * 1 ∧
    ∀ p ∈ gridPoints 0 0 0 2 1 1, ∃ r θ,
      r ∈ linspace 0.01 1 1 ∧
      θ ∈ linspace (radians 0 - radians (2 / 2)) (radians 0 + radians (2 / 2)) 1 ∧
      p = (0 + r / 111 * Real.cos θ, 0 + r / 111 * Real.sin θ) ∧
      gcDistance 0 0 p.1 p.2 = r ∧
      0 < r ∧ r ≤ 1 ∧
      radians 0 - radians (2 / 2) ≤ θ ∧ θ ≤ radians 0 + radians (2 / 2) :=
  C5_grid_points 0 0 0 2 1 1 (by norm_num) (by norm_num) (by norm_num)

/-- C5 counterexample: with resolution 1, positive radius 0.005 km, azimuth 0
and beamwidth 2, grid generation yields a single point whose radial distance
from the site is 0.01 km, strictly greater than the requested radius. -/
theorem C5_counterexample :
    gridPoints 0 0 0 2 0.005 1 =
      [(0 + 0.01 / 111 * Real.cos (radians 0 - radians (2 / 2)),
        0 + 0.01 / 111 * Real.sin (radians 0 - radians (2 / 2)))] ∧
    gcDistance 0 0 (0 + 0.01 / 111 * Real.cos (radians 0 - radians (2 / 2)))
      (0 + 0.01 / 111 * Real.sin (radians 0 - radians (2 / 2))) = 0.01 ∧
    ¬((0.01 : ℝ) ≤ 0.005) := by
  refine ⟨?_, gcDistance_polar 0 0 0.01 (radians 0 - radians (2 / 2)) (by norm_num),
    by norm_num⟩
  unfold gridPoints linspace
  norm_num

/-! ## Structure of the elevation fetch -/

theorem chunkList_eq (bs : ℕ) (l : List Key) :
    chunkList bs l = if l = [] ∨ bs = 0 then []
      else l.take bs :: chunkList bs (l.drop bs) := by
  rw [chunkList.eq_def]
  rfl

theorem chunkList_join (bs : ℕ) (hbs : bs ≠ 0) (l : List Key) :
    (chunkList bs l).flatten = l := by
  have H : ∀ n (l : List Key), l.length ≤ n → (chunkList bs l).flatten = l := by
    intro n
    induction n with
    | zero =>
      intro l hl
      have hnil : l = [] := List.eq_nil_of_length_eq_zero (Nat.le_zero.mp hl)
      subst hnil
      rw [chunkList_eq]
      simp
    | succ n ih =>
      intro l hl
      rw [chunkList_eq]
      by_cases hnil : l = []
      · rw [if_pos (Or.inl hnil)]
        simp [hnil]
      · rw [if_neg (by push_neg; exact ⟨hnil, hbs⟩)]
        have hdrop : (l.drop bs).length ≤ n := by
          rw [List.length_drop]
          have hlpos : 0 < l.length := List.length_pos.mpr hnil
          omega
        rw [List.flatten_cons, ih _ hdrop, List.take_append_drop]
  exact H l.length l le_rfl

theorem batchOutcome_length (oracle : ℕ → ℕ → Option (List ℝ)) (r k : ℕ)
    (batch : List Key) : (batchOutcome oracle r k batch).length = batch.length := by
  unfold batchOutcome
  cases h : oracle r k with
  | none => simp [h]
  | some es =>
    simp only [h]
    split_ifs with hlen
    · exact hlen
    · simp

theorem chunksOut_length (oracle : ℕ → ℕ → Option (List ℝ)) (r : ℕ) :
    ∀ (cs : List (List Key)) (k : ℕ),
      (chunksOut oracle r k cs).length = (cs.map List.length).sum := by
  intro cs
  induction cs with
  | nil =>
    intro k
    simp [chunksOut]
  | cons b rest ih =>
    intro k
    simp only [chunksOut, List.length_append, batchOutcome_length, List.map_cons,
      List.sum_cons, ih]

theorem chunksOut_chunkList_length (oracle : ℕ → ℕ → Option (List ℝ)) (r bs : ℕ)
    (hbs : bs ≠ 0) (l : List Key) (k : ℕ) :
    (chunksOut oracle r k (chunkList bs l)).length = l.length := by
  rw [chunksOut_length, ← List.length_flatten, chunkList_join bs hbs l]

theorem processChunks_snd (oracle : ℕ → ℕ → Option (List ℝ)) (r : ℕ) :
    ∀ (cs : List (List Key)) (k : ℕ) (c : Cache),
      (processChunks oracle r cs k c).2 = chunksOut oracle r k cs := by
  intro cs
  induction cs with
  | nil =>
    intro k c
    rfl
  | cons b rest ih =>
    intro k c
    simp only [processChunks, chunksOut]
    rw [ih]

theorem foldl_prepend_roundPt (l : List ((ℝ × ℝ) × ℝ)) (c : Cache) :
    l.foldl (fun c pe => (roundPt pe.1, pe.2) :: c) c =
      (l.map (fun pe => (roundPt pe.1, pe.2))).reverse ++ c := by
  induction l generalizing c with
  | nil => simp
  | cons x xs ih =>
    simp only [List.foldl_cons, List.map_cons, List.reverse_cons, ih]
    simp

theorem zip_append_right {α β : Type} :
    ∀ (l : List α) (l1 l2 : List β), l.length ≤ l1.length →
      List.zip l (l1 ++ l2) = List.zip l l1 := by
  intro l
  induction l with
  | nil =>
    intro l1 l2 _
    simp
  | cons x xs ih =>
    intro l1 l2 h
    cases l1 with
    | nil => simp at h
    | cons y ys =>
      simp only [List.cons_append, List.zip_cons_cons]
      rw [ih ys l2 (by simpa using h)]

theorem zip_self_map {α β : Type} (g : α → β) :
    ∀ (l : List α), List.zip l (l.map g) = l.map (fun a => (a, g a)) := by
  intro l
  induction l with
  | nil => rfl
  | cons x xs ih => simp only [List.map_cons, List.zip_cons_cons, ih]

theorem lookupC_isSome_iff (c : Cache) (q : Key) :
    (lookupC c q).isSome = true ↔ q ∈ c.map Prod.fst := by
  induction c with
  | nil => simp [lookupC]
  | cons kv rest ih =>
    obtain ⟨k, v⟩ := kv
    simp only [lookupC, List.map_cons, List.mem_cons]
    by_cases h : q = k
    · rw [if_pos h]
      simp [h]
    · rw [if_neg h]
      simp [h, ih]

theorem lookup_eq_of_mem_nodup (c : Cache) (hk : (c.map Prod.fst).Nodup) (k : Key) (v : ℝ)
    (hm : (k, v) ∈ c) : lookupC c k = some v := by
  induction c with
  | nil => simp at hm
  | cons kv rest ih =>
    obtain ⟨k', v'⟩ := kv
    simp only [List.map_cons, List.nodup_cons] at hk
    rcases List.mem_cons.mp hm with heq | hmem
    · have hk1 : k = k' := congrArg Prod.fst heq
      have hv1 : v = v' := congrArg Prod.snd heq
      subst hk1
      subst hv1
      simp [lookupC]
    · have hkmem : k ∈ rest.map Prod.fst := List.mem_map.mpr ⟨(k, v), hmem, rfl⟩
      have hne : k ≠ k' := by
        intro he
        exact hk.1 (he ▸ hkmem)
      simp only [lookupC]
      rw [if_neg hne]
      exact ih hk.2 hmem

theorem feLoop_snd_extends (oracle : ℕ → ℕ → Option (List ℝ)) (bs : ℕ) :
    ∀ (fuel r : ℕ) (ucs : List Key) (cache : Cache) (elevs : List ℝ),
      ∃ extra, (feLoop oracle bs fuel r ucs cache elevs).2 = elevs ++ extra := by
  intro fuel
  induction fuel with
  | zero =>
    intro r ucs cache elevs
    exact ⟨[], by simp [feLoop]⟩
  | succ fuel ih =>
    intro r ucs cache elevs
    by_cases h : ucs.isEmpty = true
    · exact ⟨[], by simp [feLoop, h]⟩
    · simp only [feLoop, if_neg h]
      obtain ⟨extra, hex⟩ := ih (r + 1)
        (ucs.filter fun p => (lookupC (processChunks oracle r (chunkList bs ucs) 0 cache).1 p).isNone)
        (processChunks oracle r (chunkList bs ucs) 0 cache).1
        (elevs ++ (processChunks oracle r (chunkList bs ucs) 0 cache).2)
      exact ⟨(processChunks oracle r (chunkList bs ucs) 0 cache).2 ++ extra,
        by rw [hex, List.append_assoc]⟩

theorem fetch_tbl_eq (oracle : ℕ → ℕ → Option (List ℝ)) (uniq : List Key) :
    List.zip uniq (feLoop oracle 300 2 1 uniq [] []).2 =
      List.zip uniq (chunksOut oracle 1 0 (chunkList 300 uniq)) := by
  by_cases hne : uniq.isEmpty = true
  · have huniq : uniq = [] := by
      cases uniq with
      | nil => rfl
      | cons x xs => simp at hne
    subst huniq
    simp
  · simp only [feLoop, if_neg hne]
    split_ifs with h2
    · simp only [List.nil_append, processChunks_snd]
    · simp only [List.nil_append, processChunks_snd]
      exact zip_append_right uniq _ _
        (le_of_eq (chunksOut_chunkList_length oracle 1 300 (by norm_num) uniq 0).symm)

theorem fetch_elevation_empty_fst (oracle : ℕ → ℕ → Option (List ℝ))
    (uniq : List Key) (points : List (ℝ × ℝ)) :
    (fetch_elevation oracle uniq points [] 300 2).1 =
      points.map (fun p => lookupD
        (List.zip uniq (chunksOut oracle 1 0 (chunkList 300 uniq))) (roundPt p) 0) := by
  have hc : uniq.filterMap (fun p => lookupC ([] : Cache) p) = [] := by
    induction uniq with
    | nil => rfl
    | cons x xs ih => simp [List.filterMap_cons, lookupC, ih]
  have hu : uniq.filter (fun p => (lookupC ([] : Cache) p).isNone) = uniq := by
    refine List.filter_eq_self.mpr ?_
    intro a _
    rfl
  simp only [fetch_elevation]
  rw [hc, hu, fetch_tbl_eq]

/-- C3: called (as `compute_coverage` does) with the elevation cache empty,
`fetch_elevation` returns one elevation per input point, in input order,
each obtained by looking up the rounded coordinate of that point in the
table pairing the deduplicated points with the first retry round's batch
outcomes (API value for a successful length-matching batch, default 0 for a
failed one); in particular duplicates by rounded coordinate receive the same
value, however the external lookups succeed or fail. -/
theorem C3_fetch_elevation_order (oracle : ℕ → ℕ → Option (List ℝ))
    (points : List (ℝ × ℝ)) (uniq : List Key) (h1 : uniq.Nodup)
    (h2 : ∀ q, q ∈ uniq ↔ q ∈ points.map roundPt) :
    (fetch_elevation oracle uniq points [] 300 2).1.length = points.length ∧
    (fetch_elevation oracle uniq points [] 300 2).1 =
      points.map (fun p => lookupD
        (List.zip uniq (chunksOut oracle 1 0 (chunkList 300 uniq))) (roundPt p) 0) ∧
    (∀ i j : ℕ, i < points.length → j < points.length →
      roundPt (points.getD i (0, 0)) = roundPt (points.getD j (0, 0)) →
      (fetch_elevation oracle uniq points [] 300 2).1.getD i 0 =
        (fetch_elevation oracle uniq points [] 300 2).1.getD j 0) := by
  have hfst := fetch_elevation_empty_fst oracle uniq points
  refine ⟨by rw [hfst, List.length_map], hfst, ?_⟩
  intro i j hi hj hkey
  rw [hfst]
  have hi' : i < (points.map (fun p => lookupD
      (List.zip uniq (chunksOut oracle 1 0 (chunkList 300 uniq))) (roundPt p) 0)).length := by
    rw [List.length_map]
    exact hi
  have hj' : j < (points.map (fun p => lookupD
      (List.zip uniq (chunksOut oracle 1 0 (chunkList 300 uniq))) (roundPt p) 0)).length := by
    rw [List.length_map]
    exact hj
  rw [List.getD_eq_getElem _ _ hi', List.getD_eq_getElem _ _ hj',
    List.getElem_map, List.getElem_map]
  rw [List.getD_eq_getElem _ _ hi, List.getD_eq_getElem _ _ hj] at hkey
  rw [hkey]

theorem C3_fetch_elevation_order_witness :
    (fetch_elevation (fun _ _ => none) [((0 : ℝ), (0 : ℝ))] [((0 : ℝ), (0 : ℝ))]
      [] 300 2).1.length = ([((0 : ℝ), (0 : ℝ))] : List (ℝ × ℝ)).length ∧
    (fetch_elevation (fun _ _ => none) [((0 : ℝ), (0 : ℝ))] [((0 : ℝ), (0 : ℝ))] [] 300 2).1 =
      ([((0 : ℝ), (0 : ℝ))] : List (ℝ × ℝ)).map (fun p => lookupD
        (List.zip [((0 : ℝ), (0 : ℝ))] (chunksOut (fun _ _ => none) 1 0
          (chunkList 300 [((0 : ℝ), (0 : ℝ))]))) (roundPt p) 0) ∧
    (∀ i j : ℕ, i < ([((0 : ℝ), (0 : ℝ))] : List (ℝ × ℝ)).length →
      j < ([((0 : ℝ), (0 : ℝ))] : List (ℝ × ℝ)).length →
      roundPt (([((0 : ℝ), (0 : ℝ))] : List (ℝ × ℝ)).getD i (0, 0)) =
        roundPt (([((0 : ℝ), (0 : ℝ))] : List (ℝ × ℝ)).getD j (0, 0)) →
      (fetch_elevation (fun _ _ => none) [((0 : ℝ), (0 : ℝ))] [((0 : ℝ), (0 : ℝ))]
        [] 300 2).1.getD i 0 =
        (fetch_elevation (fun _ _ => none) [((0 : ℝ), (0 : ℝ))] [((0 : ℝ), (0 : ℝ))]
          [] 300 2).1.getD j 0) := by
  refine C3_fetch_elevation_order (fun _ _ => none) [((0 : ℝ), (0 : ℝ))]
    [((0 : ℝ), (0 : ℝ))] (by simp) ?_
  intro q
  rw [show List.map roundPt [((0 : ℝ), (0 : ℝ))] = [((0 : ℝ), (0 : ℝ))] from by
    simp [roundPt, round5_zero]]

/-! ## The cache after a request -/

theorem foldl_prepend (l : List (Key × ℝ)) (c : Cache) :
    l.foldl (fun c kv => kv :: c) c = l.reverse ++ c := by
  induction l generalizing c with
  | nil => simp
  | cons x xs ih =>
    simp only [List.foldl_cons, List.reverse_cons, ih]
    simp

theorem processChunks_fst_ok (oracle : ℕ → ℕ → Option (List ℝ)) (r : ℕ) :
    ∀ (cs : List (List Key)) (k : ℕ) (c : Cache),
      (∀ j < cs.length, ∃ es, oracle r (k + j) = some es ∧
        es.length = (cs.getD j []).length) →
      (processChunks oracle r cs k c).1 =
        (List.zip cs.flatten (chunksOut oracle r k cs)).reverse ++ c := by
  intro cs
  induction cs with
  | nil =>
    intro k c _
    simp [processChunks, chunksOut]
  | cons b rest ih =>
    intro k c hok
    obtain ⟨es, hes, hlen⟩ := hok 0 (by simp)
    rw [Nat.add_zero] at hes
    have hget : (b :: rest).getD 0 [] = b := rfl
    rw [hget] at hlen
    have hw : batchWrites oracle r k b c = (List.zip b es).reverse ++ c := by
      unfold batchWrites
      simp only [hes]
      rw [if_pos hlen, foldl_prepend]
    have ho : batchOutcome oracle r k b = es := by
      unfold batchOutcome
      simp only [hes]
      rw [if_pos hlen]
    have hok' : ∀ j < rest.length, ∃ es', oracle r (k + 1 + j) = some es' ∧
        es'.length = (rest.getD j []).length := by
      intro j hj
      obtain ⟨es', h1', h2'⟩ := hok (j + 1) (by simpa using Nat.succ_lt_succ hj)
      refine ⟨es', ?_, by simpa using h2'⟩
      rw [show k + 1 + j = k + (j + 1) from by omega]
      exact h1'
    simp only [processChunks]
    rw [ih (k + 1) _ hok', hw]
    have hflat : (b :: rest).flatten = b ++ rest.flatten := List.flatten_cons
    have hco : chunksOut oracle r k (b :: rest) =
        es ++ chunksOut oracle r (k + 1) rest := by
      simp only [chunksOut]
      rw [ho]
    rw [hflat, hco, List.zip_append hlen.symm, List.reverse_append, List.append_assoc]

theorem filterMap_lookup_nil (uniq : List Key) :
    uniq.filterMap (fun p => lookupC ([] : Cache) p) = [] := by
  induction uniq with
  | nil => rfl
  | cons x xs ih => simp [List.filterMap_cons, lookupC, ih]

theorem filter_isNone_nil (uniq : List Key) :
    uniq.filter (fun p => (lookupC ([] : Cache) p).isNone) = uniq := by
  refine List.filter_eq_self.mpr ?_
  intro a _
  rfl

theorem fetch_cache_ok (oracle : ℕ → ℕ → Option (List ℝ)) (uniq : List Key)
    (points : List (ℝ × ℝ)) (hok : firstRoundOK oracle 300 uniq) :
    (fetch_elevation oracle uniq points [] 300 2).2 =
      (List.zip uniq (chunksOut oracle 1 0 (chunkList 300 uniq))).reverse := by
  have hout : (chunksOut oracle 1 0 (chunkList 300 uniq)).length = uniq.length :=
    chunksOut_chunkList_length oracle 1 300 (by norm_num) uniq 0
  simp only [fetch_elevation]
  rw [filterMap_lookup_nil, filter_isNone_nil]
  by_cases hne : uniq.isEmpty = true
  · have huniq : uniq = [] := by
      cases uniq with
      | nil => rfl
      | cons x xs => simp at hne
    subst huniq
    simp [feLoop]
  · have hfst : (processChunks oracle 1 (chunkList 300 uniq) 0 []).1 =
        (List.zip uniq (chunksOut oracle 1 0 (chunkList 300 uniq))).reverse := by
      have h := processChunks_fst_ok oracle 1 (chunkList 300 uniq) 0 []
        (by
          intro j hj
          obtain ⟨es, h1, h2⟩ := hok j hj
          exact ⟨es, by simpa using h1, h2⟩)
      rw [chunkList_join 300 (by norm_num) uniq] at h
      rw [h, List.append_nil]
    have hempty : (uniq.filter fun p =>
        (lookupC (processChunks oracle 1 (chunkList 300 uniq) 0 []).1 p).isNone) = [] := by
      refine List.filter_eq_nil_iff.mpr ?_
      intro q hq
      have hkeys : q ∈ ((List.zip uniq
          (chunksOut oracle 1 0 (chunkList 300 uniq))).reverse).map Prod.fst := by
        rw [List.map_reverse, List.mem_reverse,
          List.map_fst_zip _ _ (le_of_eq hout.symm)]
        exact hq
      have hsome := (lookupC_isSome_iff _ q).mpr hkeys
      rw [hfst]
      intro hno
      rw [Option.isNone_iff_eq_none.mp hno] at hsome
      simp at hsome
    simp only [feLoop, if_neg hne]
    rw [hempty]
    simp only [List.isEmpty_nil, if_true]
    exact hfst

/-- C4 amended: within one coverage request, provided every batch of the
first retry round gets a successful length-matching response from the
elevation source, the cache write history is key-consistent: every write to
an already-present rounded-coordinate key stores the same value. (By
`C4_counterexample`, without that proviso the engine's cache-population step
overwrites a key that failed on round 1 and succeeded on a retry with the
round-1 placeholder 0, a different value.) -/
theorem C4_cache_write_once (oracle : ℕ → ℕ → Option (List ℝ)) (uniq : List Key)
    (slat slng f base dt : ℝ) (env : String) (az bw radius : ℝ) (R : ℕ)
    (h1 : uniq.Nodup)
    (hok : firstRoundOK oracle 300 uniq) :
    KeyConsistent (compute_coverage oracle uniq slat slng f base dt env az bw radius R).2 := by
  have hout : (chunksOut oracle 1 0 (chunkList 300 uniq)).length = uniq.length :=
    chunksOut_chunkList_length oracle 1 300 (by norm_num) uniq 0
  have hval : ∀ kv ∈ (compute_coverage oracle uniq slat slng f base dt env az bw radius R).2,
      kv.2 = lookupD (List.zip uniq (chunksOut oracle 1 0 (chunkList 300 uniq))) kv.1 0 := by
    intro kv hkv
    simp only [compute_coverage] at hkv
    rw [foldl_prepend_roundPt] at hkv
    rw [fetch_cache_ok oracle uniq _ hok] at hkv
    rcases List.mem_append.mp hkv with hmem | hmem
    · rw [List.mem_reverse] at hmem
      have hres := fetch_elevation_empty_fst oracle uniq
        ((slat, slng) :: gridPoints slat slng az bw radius R)
      have htail : (fetch_elevation oracle uniq
          ((slat, slng) :: gridPoints slat slng az bw radius R) [] 300 2).1.tail =
          (gridPoints slat slng az bw radius R).map (fun p => lookupD
            (List.zip uniq (chunksOut oracle 1 0 (chunkList 300 uniq))) (roundPt p) 0) := by
        rw [hres, List.map_cons]
        rfl
      rw [htail, zip_self_map, List.map_map] at hmem
      obtain ⟨p, _, hpe⟩ := List.mem_map.mp hmem
      rw [← hpe]
      rfl
    · rw [List.mem_reverse] at hmem
      have hkeysnodup : ((List.zip uniq
          (chunksOut oracle 1 0 (chunkList 300 uniq))).map Prod.fst).Nodup := by
        rw [List.map_fst_zip _ _ (le_of_eq hout.symm)]
        exact h1
      have hlk := lookup_eq_of_mem_nodup _ hkeysnodup kv.1 kv.2 (by simpa using hmem)
      rw [lookupD, hlk]
      rfl
  intro kv hkv kv' hkv' hkey
  rw [hval kv hkv, hval kv' hkv', hkey]

theorem chunkList_small (bs : ℕ) (l : List Key) (hbs : bs ≠ 0) (hl : l ≠ [])
    (hlen : l.length ≤ bs) : chunkList bs l = [l] := by
  rw [chunkList_eq, if_neg (by push_neg; exact ⟨hl, hbs⟩),
    List.take_of_length_le hlen, List.drop_of_length_le hlen, chunkList_eq,
    if_pos (Or.inl rfl)]

theorem C4_cache_write_once_witness :
    KeyConsistent (compute_coverage (fun _ _ => some [0, 0])
      [((0 : ℝ), (0 : ℝ)), ((9 / 100000 : ℝ), (0 : ℝ))]
      0 0 900 30 0 "rural" 0 0 0.01 1).2 := by
  refine C4_cache_write_once (fun _ _ => some [0, 0])
    [((0 : ℝ), (0 : ℝ)), ((9 / 100000 : ℝ), (0 : ℝ))] 0 0 900 30 0 "rural" 0 0 0.01 1 ?_ ?_
  · have hne : ((0 : ℝ), (0 : ℝ)) ≠ ((9 / 100000 : ℝ), (0 : ℝ)) := by
      intro h
      rw [Prod.mk.injEq] at h
      exact absurd h.1 (by norm_num)
    refine List.nodup_cons.mpr ⟨?_, List.nodup_singleton _⟩
    intro hmem
    rw [List.mem_singleton] at hmem
    exact hne hmem
  · intro j hj
    rw [chunkList_small 300 _ (by norm_num) (by simp) (by simp)] at hj ⊢
    have hj0 : j = 0 := by simpa using hj
    subst hj0
    exact ⟨[0, 0], rfl, by simp⟩

/-- C4 counterexample: with a first elevation round that fails and a retry
that succeeds with elevations [3, 5], the grid point's rounded key
(9/100000, 0) is first cached with value 5 (the retry result) and then
overwritten by the engine's cache-population step with the round-1
placeholder 0 - a different value, violating the write-once invariant
within a single request. -/
theorem C4_counterexample :
    ([((0 : ℝ), (0 : ℝ)), ((9 / 100000 : ℝ), (0 : ℝ))] : List Key).Nodup ∧
    (((0 : ℝ), (0 : ℝ)) :: gridPoints 0 0 0 0 0.01 1).map roundPt =
      [((0 : ℝ), (0 : ℝ)), ((9 / 100000 : ℝ), (0 : ℝ))] ∧
    ¬ KeyConsistent (compute_coverage
      (fun r _ => if r = 1 then none else some [3, 5])
      [((0 : ℝ), (0 : ℝ)), ((9 / 100000 : ℝ), (0 : ℝ))]
      0 0 900 30 0 "rural" 0 0 0.01 1).2 := by
  have hgrid : gridPoints 0 0 0 0 0.01 1 = [((0.01 / 111 : ℝ), (0 : ℝ))] := by
    unfold gridPoints linspace radians
    norm_num
  have hkey : roundPt ((0.01 / 111 : ℝ), (0 : ℝ)) = ((9 / 100000 : ℝ), (0 : ℝ)) := by
    unfold roundPt
    rw [round5_zero, round5_eval (0.01 / 111) 9 (by norm_num) (by norm_num)]
    norm_num
  have hr0 : roundPt ((0 : ℝ), (0 : ℝ)) = ((0 : ℝ), (0 : ℝ)) := by
    unfold roundPt
    rw [round5_zero]
  have hne : ((0 : ℝ), (0 : ℝ)) ≠ ((9 / 100000 : ℝ), (0 : ℝ)) := by
    intro h
    rw [Prod.mk.injEq] at h
    exact absurd h.1 (by norm_num)
  have hnodup : ([((0 : ℝ), (0 : ℝ)), ((9 / 100000 : ℝ), (0 : ℝ))] : List Key).Nodup := by
    refine List.nodup_cons.mpr ⟨?_, List.nodup_singleton _⟩
    intro hmem
    rw [List.mem_singleton] at hmem
    exact hne hmem
  refine ⟨hnodup, by rw [hgrid, List.map_cons, hr0]; simp [hkey], ?_⟩
  have hchunk : chunkList 300 [((0 : ℝ), (0 : ℝ)), ((9 / 100000 : ℝ), (0 : ℝ))] =
      [[((0 : ℝ), (0 : ℝ)), ((9 / 100000 : ℝ), (0 : ℝ))]] :=
    chunkList_small 300 _ (by norm_num) (by simp) (by simp)
  have hp1 : processChunks (fun r _ => if r = 1 then none else some [3, 5]) 1
      [[((0 : ℝ), (0 : ℝ)), ((9 / 100000 : ℝ), (0 : ℝ))]] 0 [] = ([], [0, 0]) := by
    simp [processChunks, batchWrites, batchOutcome, chunksOut, List.replicate]
  have hp2 : processChunks (fun r _ => if r = 1 then none else some [3, 5]) 2
      [[((0 : ℝ), (0 : ℝ)), ((9 / 100000 : ℝ), (0 : ℝ))]] 0 [] =
      ([(((9 / 100000 : ℝ), (0 : ℝ)), 5), (((0 : ℝ), (0 : ℝ)), 3)], [3, 5]) := by
    simp [processChunks, batchWrites, batchOutcome, chunksOut]
  have hloop : feLoop (fun r _ => if r = 1 then none else some [3, 5]) 300 2 1
      [((0 : ℝ), (0 : ℝ)), ((9 / 100000 : ℝ), (0 : ℝ))] [] [] =
      ([(((9 / 100000 : ℝ), (0 : ℝ)), 5), (((0 : ℝ), (0 : ℝ)), 3)], [0, 0, 3, 5]) := by
    simp only [feLoop, hchunk, hp1, hp2, filter_isNone_nil]
    norm_num
  have hall : ∀ kv ∈ ([((((0 : ℝ), (0 : ℝ))), (0 : ℝ)),
      ((((9 / 100000 : ℝ), (0 : ℝ))), (0 : ℝ))] : Cache), kv.2 = 0 := by
    intro kv hkv
    simp only [List.mem_cons, List.not_mem_nil, or_false] at hkv
    rcases hkv with rfl | rfl <;> rfl
  have hfetch : fetch_elevation (fun r _ => if r = 1 then none else some [3, 5])
      [((0 : ℝ), (0 : ℝ)), ((9 / 100000 : ℝ), (0 : ℝ))]
      [((0 : ℝ), (0 : ℝ)), ((0.01 / 111 : ℝ), (0 : ℝ))] [] 300 2 =
      ([0, 0], [(((9 / 100000 : ℝ), (0 : ℝ)), 5), (((0 : ℝ), (0 : ℝ)), 3)]) := by
    simp only [fetch_elevation, filterMap_lookup_nil, filter_isNone_nil, hloop]
    simp only [List.zip_cons_cons, List.zip_nil_left, List.map_cons, List.map_nil, hr0, hkey]
    rw [lookupD_eq_of_all_eq _ _ 0 hall, lookupD_eq_of_all_eq _ _ 0 hall]
  have hcc2 : (compute_coverage (fun r _ => if r = 1 then none else some [3, 5])
      [((0 : ℝ), (0 : ℝ)), ((9 / 100000 : ℝ), (0 : ℝ))]
      0 0 900 30 0 "rural" 0 0 0.01 1).2 =
      [(((9 / 100000 : ℝ), (0 : ℝ)), 0), (((9 / 100000 : ℝ), (0 : ℝ)), 5),
        (((0 : ℝ), (0 : ℝ)), 3)] := by
    simp only [compute_coverage, hgrid, hfetch]
    simp [hkey]
  rw [hcc2]
  intro hK
  have h5 := hK (((9 / 100000 : ℝ), (0 : ℝ)), 5) (by simp)
    (((9 / 100000 : ℝ), (0 : ℝ)), 0) (by simp) rfl
  norm_num at h5

/-! ## The end-to-end scenario -/

theorem logb10_10 : Real.logb 10 10 = 1 :=
  Real.logb_self_eq_one (by norm_num)

theorem logb10_100 : Real.logb 10 100 = 2 := by
  rw [show (100 : ℝ) = 10 ^ (2 : ℕ) by norm_num, Real.logb_pow, logb10_10]
  norm_num

theorem logb10_1000 : Real.logb 10 1000 = 3 := by
  rw [show (1000 : ℝ) = 10 ^ (3 : ℕ) by norm_num, Real.logb_pow, logb10_10]
  norm_num

theorem logb10_point01 : Real.logb 10 0.01 = -2 := by
  rw [show (0.01 : ℝ) = (100 : ℝ)⁻¹ by norm_num, Real.logb_inv, logb10_100]

theorem logb10_le (x y : ℝ) (hx : 0 < x) (hxy : x ≤ y) :
    Real.logb 10 x ≤ Real.logb 10 y :=
  Real.logb_le_logb_of_le (by norm_num) hx hxy

theorem scenarioAngle_eq : scenarioAngle = -(radians 5) := by
  unfold scenarioAngle
  rw [show radians 0 = 0 from by unfold radians; ring,
    show (10 : ℝ) / 2 = 5 by norm_num, zero_sub]

theorem cos_scenarioAngle_gt : 1 / 2 < Real.cos scenarioAngle := by
  rw [scenarioAngle_eq, Real.cos_neg]
  have hπ := Real.pi_pos
  have h0 : 0 ≤ radians 5 := by
    unfold radians
    positivity
  have h5 : radians 5 < Real.pi / 3 := by
    unfold radians
    nlinarith
  have h3 : Real.pi / 3 ≤ Real.pi := by nlinarith
  have := Real.cos_lt_cos_of_nonneg_of_le_pi h0 h3 h5
  rw [Real.cos_pi_div_three] at this
  exact this

theorem gridPoint8_key_ne : ((0 : ℝ), (0 : ℝ)) ≠ roundPt gridPoint8 := by
  have hcos := cos_scenarioAngle_gt
  have harg : (1 : ℝ) ≤ (0 + 0.01 / 111 * Real.cos scenarioAngle) * 100000 + 1 / 2 := by
    nlinarith
  have hround : (1 : ℤ) ≤ round ((0 + 0.01 / 111 * Real.cos scenarioAngle) * 100000) := by
    rw [round_eq]
    exact Int.le_floor.mpr (by exact_mod_cast harg)
  have hpos : 0 < round5 (0 + 0.01 / 111 * Real.cos scenarioAngle) := by
    unfold round5
    have : (1 : ℝ) ≤ ((round ((0 + 0.01 / 111 * Real.cos scenarioAngle) * 100000) : ℤ) : ℝ) := by
      exact_mod_cast hround
    positivity
  intro h
  have h1 := congrArg Prod.fst h
  simp only [roundPt, gridPoint8] at h1
  rw [← h1] at hpos
  exact lt_irrefl 0 hpos

theorem uniq8_nodup : uniq8.Nodup := by
  unfold uniq8
  refine List.nodup_cons.mpr ⟨?_, List.nodup_singleton _⟩
  intro hmem
  rw [List.mem_singleton] at hmem
  exact gridPoint8_key_ne hmem

theorem grid8_eq : gridPoints 0 0 0 10 1 1 = [gridPoint8] := by
  unfold gridPoints
  rw [show linspace 0.01 1 1 = [0.01] from by unfold linspace; norm_num,
    show linspace (radians 0 - radians (10 / 2)) (radians 0 + radians (10 / 2)) 1 =
      [radians 0 - radians (10 / 2)] from by unfold linspace; norm_num]
  simp [gridPoint8, scenarioAngle]

theorem chunk8_eq : chunkList 300 uniq8 = [uniq8] :=
  chunkList_small 300 uniq8 (by norm_num) (by unfold uniq8; simp) (by unfold uniq8; simp)

theorem ok8 : firstRoundOK oracle8 300 uniq8 := by
  intro j hj
  rw [chunk8_eq] at hj ⊢
  have hj0 : j = 0 := by simpa using hj
  subst hj0
  exact ⟨[0, 0], rfl, by unfold uniq8; simp⟩

theorem out8_eq : chunksOut oracle8 1 0 (chunkList 300 uniq8) = [0, 0] := by
  rw [chunk8_eq]
  simp [chunksOut, batchOutcome, oracle8, uniq8]

theorem fetch8_snd : (fetch_elevation oracle8 uniq8
    (((0 : ℝ), (0 : ℝ)) :: [gridPoint8]) [] 300 2).2 =
    [(roundPt gridPoint8, 0), (((0 : ℝ), (0 : ℝ)), 0)] := by
  rw [fetch_cache_ok oracle8 uniq8 _ ok8, out8_eq]
  unfold uniq8
  simp

theorem fetch8_fst : (fetch_elevation oracle8 uniq8
    (((0 : ℝ), (0 : ℝ)) :: [gridPoint8]) [] 300 2).1 = [0, 0] := by
  rw [fetch_elevation_empty_fst, out8_eq]
  have hall : ∀ kv ∈ List.zip uniq8 [(0 : ℝ), 0], kv.2 = 0 := by
    unfold uniq8
    intro kv hkv
    simp only [List.zip_cons_cons, List.zip_nil_left, List.mem_cons,
      List.not_mem_nil, or_false] at hkv
    rcases hkv with rfl | rfl <;> rfl
  simp only [List.map_cons, List.map_nil]
  rw [lookupD_eq_of_all_eq _ _ 0 hall, lookupD_eq_of_all_eq _ _ 0 hall]

theorem run8_snd : run8.2 = [(roundPt gridPoint8, 0), (roundPt gridPoint8, 0),
    (((0 : ℝ), (0 : ℝ)), 0)] := by
  unfold run8
  simp only [compute_coverage, grid8_eq, fetch8_fst, fetch8_snd]
  simp

theorem cache8_all_zero : ∀ kv ∈ ([(roundPt gridPoint8, 0), (roundPt gridPoint8, 0),
    (((0 : ℝ), (0 : ℝ)), 0)] : Cache), kv.2 = 0 := by
  intro kv hkv
  simp only [List.mem_cons, List.not_mem_nil, or_false] at hkv
  rcases hkv with rfl | rfl | rfl <;> rfl

theorem dist8_eq : gcDistance 0 0 gridPoint8.1 gridPoint8.2 = 0.01 := by
  simp only [gridPoint8]
  exact gcDistance_polar 0 0 0.01 scenarioAngle (by norm_num)

theorem site8_eq : rsrpSiteTotal [(roundPt gridPoint8, 0), (roundPt gridPoint8, 0),
    (((0 : ℝ), (0 : ℝ)), 0)] 0 0 30 = 30 := by
  unfold rsrpSiteTotal
  rw [lookupD_eq_of_all_eq _ _ 0 cache8_all_zero]
  rw [max_eq_right (by norm_num : (1 : ℝ) ≤ 30 + 0)]
  norm_num

theorem point8_eq : rsrpPointTotal [(roundPt gridPoint8, 0), (roundPt gridPoint8, 0),
    (((0 : ℝ), (0 : ℝ)), 0)] gridPoint8.1 gridPoint8.2 = 1.5 := by
  unfold rsrpPointTotal
  rw [lookupD_eq_of_all_eq _ _ 0 cache8_all_zero]
  norm_num

theorem los8_eq : detailed_los_with_diffraction [(roundPt gridPoint8, 0),
    (roundPt gridPoint8, 0), (((0 : ℝ), (0 : ℝ)), 0)] 0 0 gridPoint8.1 gridPoint8.2
    30 1.5 900 = (true, 0) := by
  refine detailed_los_clear_of_le _ 0 0 gridPoint8.1 gridPoint8.2 30 1.5 900 0 ?_ le_rfl
    (fun kv hkv => le_of_eq (cache8_all_zero kv hkv)) (by norm_num) (by norm_num)
  rw [dist8_eq]
  norm_num

theorem degrees_arctan_ge : 45 ≤ degrees (Real.arctan 2.85) := by
  unfold degrees
  have hπ := Real.pi_pos
  have ha : Real.arctan 1 < Real.arctan 2.85 := Real.arctan_strictMono (by norm_num)
  rw [Real.arctan_one] at ha
  rw [le_div_iff hπ]
  nlinarith

theorem pathLoss8_lb : -45 ≤ baselinePathLoss 900 30 0.01 := by
  unfold baselinePathLoss log10
  have h1 : (0 : ℝ) ≤ Real.logb 10 900 := Real.logb_nonneg (by norm_num) (by norm_num)
  have h2 : Real.logb 10 30 ≤ 2 := by
    rw [show (2 : ℝ) = Real.logb 10 100 from logb10_100.symm]
    exact logb10_le 30 100 (by norm_num) (by norm_num)
  have h3 : 1 ≤ Real.logb 10 30 := by
    rw [show (1 : ℝ) = Real.logb 10 10 from logb10_10.symm]
    exact logb10_le 10 30 (by norm_num) (by norm_num)
  rw [logb10_point01]
  nlinarith

theorem calc8_eq : calculate_rsrp_with_enhanced_los [(roundPt gridPoint8, 0),
    (roundPt gridPoint8, 0), (((0 : ℝ), (0 : ℝ)), 0)] 0 0 gridPoint8.1 gridPoint8.2
    900 30 43 0 "rural" = .ok (-140) := by
  have hata : atan2 (30 - 1.5) (0.01 * 1000) = Real.arctan 2.85 := by
    unfold atan2
    rw [if_pos (by norm_num : (0 : ℝ) < 0.01 * 1000)]
    norm_num
  have hd45 := degrees_arctan_ge
  have habs : |degrees (Real.arctan 2.85) - 0| = degrees (Real.arctan 2.85) := by
    rw [sub_zero, abs_of_nonneg (by linarith)]
  have hsh : shadowing "rural" = 1 := by
    unfold shadowing
    rw [if_neg (by decide), if_neg (by decide), if_pos rfl]
  have hPL := pathLoss8_lb
  simp only [calculate_rsrp_with_enhanced_los]
  rw [dist8_eq, site8_eq, point8_eq, los8_eq]
  rw [if_neg (by norm_num : ¬(0.01 : ℝ) ≤ 0)]
  rw [if_neg (by simp : ¬((true, (0 : ℝ)) : Bool × ℝ).1 = false)]
  rw [hata, habs]
  rw [if_neg (by norm_num : ¬((30 : ℝ) ≤ 0 ∨ (0.01 : ℝ) ≤ 0))]
  rw [if_neg (by norm_num : ¬(900 : ℝ) ≤ 0)]
  rw [if_pos (show (3 : ℝ) < degrees (Real.arctan 2.85) by linarith)]
  rw [hsh]
  have hvg : -6 * ((degrees (Real.arctan 2.85) - 3) / 2) ^ 2 ≤ -2646 := by
    nlinarith
  rw [min_eq_left (by nlinarith), max_eq_left (by nlinarith)]

theorem run8_fst : run8.1 = .ok [(gridPoint8.1, gridPoint8.2, -140)] := by
  unfold run8
  simp only [compute_coverage, grid8_eq, fetch8_fst, fetch8_snd]
  simp only [List.tail_cons, List.zip_cons_cons, List.zip_nil_right, List.foldl_cons,
    List.foldl_nil]
  simp only [coverageLoop, calc8_eq]

/-- C8 counterexample: in the spec's end-to-end scenario (site (0,0),
900 MHz, antenna 30 m, flat terrain, downtilt 0, rural, resolution 1,
radius 1 km, azimuth 0, beamwidth 10) the single produced sample lies at
radial distance 0.01 km - not ~1 km - and its RSRP is -140, which differs
from the claimed value tx_power - baseline_path_loss(900, 31, 1.0) -
shadowing(rural), clamped (that value is above -93). -/
theorem C8_counterexample :
    run8.1 = .ok [(gridPoint8.1, gridPoint8.2, -140)] ∧
    gcDistance 0 0 gridPoint8.1 gridPoint8.2 = 0.01 ∧
    (-140 : ℝ) ≠ max (-140) (min (43 - baselinePathLoss 900 31 1 - shadowing "rural")
      (-30)) := by
  refine ⟨run8_fst, dist8_eq, ?_⟩
  have hsh : shadowing "rural" = 1 := by
    unfold shadowing
    rw [if_neg (by decide), if_neg (by decide), if_pos rfl]
  have hPL1 : baselinePathLoss 900 31 1 =
      46.3 + 33.9 * Real.logb 10 900 - 13.82 * Real.logb 10 31 := by
    unfold baselinePathLoss log10
    rw [Real.logb_one]
    ring
  have h900a : (2 : ℝ) ≤ Real.logb 10 900 := by
    rw [show (2 : ℝ) = Real.logb 10 100 from logb10_100.symm]
    exact logb10_le 100 900 (by norm_num) (by norm_num)
  have h900b : Real.logb 10 900 ≤ 3 := by
    rw [show (3 : ℝ) = Real.logb 10 1000 from logb10_1000.symm]
    exact logb10_le 900 1000 (by norm_num) (by norm_num)
  have h31a : (1 : ℝ) ≤ Real.logb 10 31 := by
    rw [show (1 : ℝ) = Real.logb 10 10 from logb10_10.symm]
    exact logb10_le 10 31 (by norm_num) (by norm_num)
  have h31b : Real.logb 10 31 ≤ 2 := by
    rw [show (2 : ℝ) = Real.logb 10 100 from logb10_100.symm]
    exact logb10_le 31 100 (by norm_num) (by norm_num)
  rw [hsh, hPL1]
  rw [min_eq_left (by nlinarith), max_eq_right (by nlinarith)]
  intro h
  nlinarith

/-- C8 amended: in the end-to-end scenario the code produces a single sample
at the grid point at radial distance 0.01 km (the degenerate single-sample
`np.linspace(0.01, radius, 1)`) at angle azimuth - beamwidth/2 from the
site, the LOS analysis does report clear = true, and the RSRP is -140: the
steep elevation angle to a point only 10 m away incurs a vertical-pattern
loss of thousands of dB, clamping the value to the floor. `uniq8` is a
legitimate set-enumeration of the rounded points (duplicate-free and equal
to the rounded point list). -/
theorem C8_end_to_end :
    uniq8.Nodup ∧
    ((((0 : ℝ), (0 : ℝ)) :: gridPoints 0 0 0 10 1 1).map roundPt = uniq8) ∧
    run8.1 = .ok [(gridPoint8.1, gridPoint8.2, -140)] ∧
    gcDistance 0 0 gridPoint8.1 gridPoint8.2 = 0.01 ∧
    rsrpLosClear run8.2 0 0 gridPoint8.1 gridPoint8.2 900 30 = true := by
  refine ⟨uniq8_nodup, ?_, run8_fst, dist8_eq, ?_⟩
  · rw [grid8_eq]
    unfold uniq8
    simp [roundPt, round5_zero]
  · unfold rsrpLosClear
    rw [run8_snd, site8_eq, point8_eq, los8_eq]

theorem C1_rsrp_in_range_witness :
    -140 ≤ ((gridPoint8.1, gridPoint8.2, (-140 : ℝ)) : ℝ × ℝ × ℝ).2.2 ∧
    ((gridPoint8.1, gridPoint8.2, (-140 : ℝ)) : ℝ × ℝ × ℝ).2.2 ≤ -30 := by
  have h : (compute_coverage oracle8 uniq8 0 0 900 30 0 "rural" 0 10 1 1).1 =
      .ok [(gridPoint8.1, gridPoint8.2, -140)] := run8_fst
  exact C1_rsrp_in_range oracle8 uniq8 0 0 900 30 0 "rural" 0 10 1 1 _ h
    (gridPoint8.1, gridPoint8.2, -140) (by simp)

end Propagation
